import Mathlib

/-! Omniledger transaction core.

A shallow embedding of `omniledger/service/transaction.go`: the instruction
data model, the instruction digest, identifier derivation, the
authorization-request builder with two-pass signing, and the salted batch
ordering.

Conventions of the embedding.

* A Go `[]byte` and a Go `string` are both lists of bytes (a Go string is an
  immutable byte sequence); a nil slice is the empty list.
* A Go `[32]byte` is a list of bytes together with a proof of its length.
* Go `int` is `Int`; the conversion `uint32(x)` is reduction modulo `2 ^ 32`.
* A `hash.Hash` is the list of bytes written so far: `h.Write(p)` appends and
  `h.Sum(nil)` applies the digest function to what was written.
* Code that lives outside the file (`crypto/sha256`, `sort.Slice`,
  `network.Marshal`, `network.Unmarshal`, the `darc` package) is a parameter
  of the function that calls it.
-/

set_option linter.dupNamespace false

namespace Omniledger

/-! ## Bytes -/

/-- One octet. -/
abbrev Byte := Fin 256

/-- Go `[]byte`, and the bytes of a Go `string`. -/
abbrev Bytes := List Byte

/-- Go `[32]byte`: the type of `Nonce`, `SubID` and of a SHA-256 digest. -/
abbrev Array32 := { l : Bytes // l.length = 32 }

/-- The zero value of a `[32]byte`. -/
def Array32.zero : Array32 := ⟨List.replicate 32 0, by simp⟩

/-- The bytes of a string literal of the source (ASCII literals only). -/
def bytesOf (s : String) : Bytes := s.toList.map (fun c => Fin.ofNat c.toNat)

/-- Go `uint32(x)` for an `int` x: the value modulo `2 ^ 32`. -/
def uint32 (x : Int) : Nat := (x % 4294967296).toNat

/-- Go `binary.LittleEndian.PutUint32(b, v)` on a 4-byte buffer: the buffer
afterwards, `b[0] = byte(v)`, `b[1] = byte(v >> 8)`, `b[2] = byte(v >> 16)`,
`b[3] = byte(v >> 24)`. -/
def putUint32 (v : Nat) : Bytes :=
  [Fin.ofNat v, Fin.ofNat (v >>> 8), Fin.ofNat (v >>> 16), Fin.ofNat (v >>> 24)]

/-- Go `bytes.Compare(a, b)`: `-1`, `0` or `1` as a is lexicographically less
than, equal to, or greater than b, bytes compared unsigned. -/
def bytesCompare : Bytes → Bytes → Int
  | [], [] => 0
  | [], _ :: _ => -1
  | _ :: _, [] => 1
  | a :: as, b :: bs =>
    if a < b then -1 else if b < a then 1 else bytesCompare as bs

/-- Go error values. A run-time panic (nil dereference, index out of range) is
recorded as `panic`, an ordinary `error` value as `error`. -/
inductive GoError where
  | error (msg : String)
  | panic (msg : String)
  deriving DecidableEq, Repr

/-! ## Data model -/

namespace darc

/-- Modelled from the spec: `darc.ID`, the identifier of a policy object, a
byte slice (the `darc` package is not part of the sources at hand). -/
abbrev ID := Bytes

/-- Modelled from the spec: `darc.Identity`, the identity of a signer, kept as
its identity bytes (the `darc` package is not part of the sources at hand). -/
structure Identity where
  bytes : Bytes
  deriving DecidableEq, Repr

/-- Modelled from the spec: `darc.Signature`, an identity together with
signature bytes (the `darc` package is not part of the sources at hand). -/
structure Signature where
  Signature : Bytes
  Signer : Identity
  deriving DecidableEq, Repr

/-- Modelled from the spec: `darc.Request`, the request handed to the
access-control evaluator: base ID, action, message, identities, signatures
(the `darc` package is not part of the sources at hand). -/
structure Request where
  BaseID : ID
  Action : Bytes
  Msg : Bytes
  Identities : List Identity
  Signatures : List Bytes
  deriving DecidableEq, Repr

/-- Modelled from the spec: `darc.InitRequest`, which fills a request with the
five values it is given (the `darc` package is not part of the sources at
hand). -/
def InitRequest (baseID : ID) (action : Bytes) (msg : Bytes)
    (ids : List Identity) (sigs : List Bytes) : Request :=
  { BaseID := baseID, Action := action, Msg := msg, Identities := ids, Signatures := sigs }

/-- Modelled from the spec: `darc.Signer`, a party that has an identity and
can sign a message, the signing operation being fallible; `Sign` gives the
outcome of the one signing call made on a message (the `darc` package is not
part of the sources at hand). -/
structure Signer where
  Identity : Identity
  Sign : Bytes → Except GoError Bytes

end darc

/-- The type `Nonce [32]byte`. -/
abbrev Nonce := Array32

/-- The type `SubID [32]byte`. -/
abbrev SubID := Array32

/-- The struct `InstanceID`. -/
structure InstanceID where
  DarcID : darc.ID
  SubID : SubID
  deriving DecidableEq

/-- The struct `Argument`: a name/value pair. -/
structure Argument where
  Name : Bytes
  Value : Bytes
  deriving DecidableEq, Repr

/-- The type `Arguments []Argument`. -/
abbrev Arguments := List Argument

/-- The struct `Spawn`. -/
structure Spawn where
  ContractID : Bytes
  Args : Arguments
  deriving DecidableEq, Repr

/-- The struct `Invoke`. -/
structure Invoke where
  Command : Bytes
  Args : Arguments
  deriving DecidableEq, Repr

/-- The struct `Delete`, which has no field. -/
structure Delete where
  deriving DecidableEq, Repr

/-- The struct `Instruction`. The three pointer fields `Spawn`, `Invoke` and
`Delete` are options, `none` being the nil pointer. -/
structure Instruction where
  InstanceID : InstanceID
  Nonce : Nonce
  Index : Int
  Length : Int
  Spawn : Option Spawn
  Invoke : Option Invoke
  Delete : Option Delete
  Signatures : List darc.Signature
  deriving DecidableEq

/-- The type `Instructions []Instruction`. -/
abbrev Instructions := List Instruction

/-- The struct `ClientTransaction`. -/
structure ClientTransaction where
  Instructions : Instructions
  deriving DecidableEq

/-- What `network.Unmarshal` hands back as an `interface{}` value: a pointer
to a `ClientTransaction`, or a value of some other registered type. -/
inductive NetworkMessage where
  | clientTransaction (ct : ClientTransaction)
  | other
  deriving DecidableEq

/-! ## Instruction: search, digest, identifier derivation -/

/-- The method `Arguments.Search`: the value of the first argument of that
name, nil when there is none. -/
def Arguments.Search : Arguments → Bytes → Bytes
  | [], _ => []
  | arg :: rest, name => if arg.Name = name then arg.Value else Arguments.Search rest name

/-- The method `InstanceID.Slice`. -/
def InstanceID.Slice (oid : InstanceID) : Bytes :=
  let out : Bytes := []
  let out := out ++ oid.DarcID
  out ++ oid.SubID.val

/-- The bytes written to the hasher by `Instruction.Hash`, in the order of the
writes. -/
def Instruction.hashWrites (instr : Instruction) : Bytes :=
  let h : Bytes := []
  let h := h ++ instr.InstanceID.DarcID
  let h := h ++ instr.InstanceID.SubID.val
  let h := h ++ instr.Nonce.val
  let h := h ++ putUint32 (uint32 instr.Index)
  let h := h ++ putUint32 (uint32 instr.Length)
  let hargs : Bytes × List Argument :=
    match instr.Spawn, instr.Invoke, instr.Delete with
    | some s, _, _ => ((h ++ [0]) ++ s.ContractID, s.Args)
    | none, some inv, _ => (h ++ [1], inv.Args)
    | none, none, some _ => (h ++ [2], [])
    | none, none, none => (h, [])
  hargs.2.foldl (fun h a => (h ++ a.Name) ++ a.Value) hargs.1

/-- The method `Instruction.Hash`; `sha256` is the digest function of
`crypto/sha256`. -/
def Instruction.Hash (sha256 : Bytes → Array32) (instr : Instruction) : Bytes :=
  (sha256 instr.hashWrites).val

/-- The bytes written to the hasher by `Instruction.DeriveID`. -/
def Instruction.deriveWrites (sha256 : Bytes → Array32) (instr : Instruction)
    (what : Bytes) : Bytes :=
  let h : Bytes := []
  let h := h ++ what
  let h := h ++ instr.Hash sha256
  instr.Signatures.foldl (fun h s => h ++ s.Signature) h

/-- The method `Instruction.DeriveID`. The 32 bytes of the sum are copied
into the new `SubID`. -/
def Instruction.DeriveID (sha256 : Bytes → Array32) (instr : Instruction)
    (what : Bytes) : Omniledger.InstanceID :=
  let sum := sha256 (instr.deriveWrites sha256 what)
  let sub : SubID := sum
  { DarcID := instr.InstanceID.DarcID, SubID := sub }

/-- The method `Instruction.Action`. -/
def Instruction.Action (instr : Instruction) : Bytes :=
  let a := bytesOf "invalid"
  match instr.Spawn, instr.Invoke, instr.Delete with
  | some s, _, _ => bytesOf "spawn:" ++ s.ContractID
  | none, some inv, _ => bytesOf "invoke:" ++ inv.Command
  | none, none, some _ => bytesOf "Delete"
  | none, none, none => a

/-! ## Authorization request and signing -/

/-- The method `Instruction.ToDarcRequest`. `NewFromProtobuf` and `GetID` are
the functions of the `darc` package that decode a policy object and give its
identifier. Reading `instr.Invoke.Args` through a nil `Invoke` is a nil
pointer dereference. -/
def Instruction.ToDarcRequest {Darc : Type} (sha256 : Bytes → Array32)
    (NewFromProtobuf : Bytes → Except GoError Darc) (GetID : Darc → Bytes)
    (instr : Instruction) : Except GoError darc.Request :=
  let baseID := instr.InstanceID.DarcID
  let action := instr.Action
  let ids := instr.Signatures.map (fun sig => sig.Signer)
  let sigs := instr.Signatures.map (fun sig => sig.Signature)
  if action = bytesOf "_evolve" then
    match instr.Invoke with
    | none => .error (.panic "nil pointer dereference")
    | some inv =>
      let darcBuf := inv.Args.Search (bytesOf "darc")
      match NewFromProtobuf darcBuf with
      | .error err => .error err
      | .ok d => .ok (darc.InitRequest baseID action (GetID d) ids sigs)
  else
    .ok (darc.InitRequest baseID action (instr.Hash sha256) ids sigs)

/-- The zero value of `darc.Signature`, as `make([]darc.Signature, n)` fills
a fresh slice with. -/
def darc.Signature.zero : darc.Signature := { Signature := [], Signer := { bytes := [] } }

/-- The second loop of `Instruction.SignBy`, from index i on: each remaining
signer signs the digest and the pair is written at its index; the first
failing signer ends the call with its error, the instruction staying as it is
at that moment. -/
def Instruction.signLoop (digest : Bytes) :
    List darc.Signer → Nat → Instruction → Instruction × Option GoError
  | [], _, instr => (instr, none)
  | signer :: rest, i, instr =>
    match signer.Sign digest with
    | .error err => (instr, some err)
    | .ok sig =>
      Instruction.signLoop digest rest (i + 1)
        { instr with
          Signatures := instr.Signatures.set i { Signature := sig, Signer := signer.Identity } }

/-- The method `Instruction.SignBy`, which works on a pointer: the result is
the instruction as the call leaves it, together with the returned error (none
for nil). `requestHash` is the method `Request.Hash` of the `darc` package. -/
def Instruction.SignBy {Darc : Type} (sha256 : Bytes → Array32)
    (NewFromProtobuf : Bytes → Except GoError Darc) (GetID : Darc → Bytes)
    (requestHash : darc.Request → Bytes)
    (instr : Instruction) (signers : List darc.Signer) : Instruction × Option GoError :=
  let sigs : List darc.Signature :=
    signers.map (fun signer => { darc.Signature.zero with Signer := signer.Identity })
  let instr := { instr with Signatures := sigs }
  match instr.ToDarcRequest sha256 NewFromProtobuf GetID with
  | .error err => (instr, some err)
  | .ok req =>
    let req := { req with Identities := signers.map (fun signer => signer.Identity) }
    let digest := requestHash req
    let instr :=
      { instr with Signatures := List.replicate signers.length darc.Signature.zero }
    Instruction.signLoop digest signers 0 instr

/-! ## Salted batch ordering -/

/-- The inner loop of `xorTransactions`: `result[i] = result[i] ^ hs[i]` for
every index of the 32-byte result. -/
def Array32.xor (result hs : Array32) : Array32 :=
  ⟨List.zipWith (fun x y => x ^^^ y) result.val hs.val, by
    simp [List.length_zipWith, result.property, hs.property]⟩

/-- The function `xorTransactions`. -/
def xorTransactions (sha256 : Bytes → Array32) (ts : List Bytes) : Bytes :=
  (ts.foldl (fun result t => Array32.xor result (sha256 t)) Array32.zero).val

/-- The closure `less` of `sortWithSalt`, on the two entries it reads. -/
def saltedLess (sha256 : Bytes → Array32) (salt : Bytes) (ti tj : Bytes) : Bool :=
  let h1 := sha256 (salt ++ ti)
  let h2 := sha256 (salt ++ tj)
  bytesCompare h1.val h2.val == -1

/-- The function `sortWithSalt`; `sortSlice` is `sort.Slice`, given the
comparison on entries and the slice, and returning the slice afterwards. -/
def sortWithSalt (sortSlice : (Bytes → Bytes → Bool) → List Bytes → List Bytes)
    (sha256 : Bytes → Array32) (ts : List Bytes) (salt : Bytes) : List Bytes :=
  sortSlice (saltedLess sha256 salt) ts

/-- The first loop of `sortTransactions`: marshal every entry in order, the
first failure ending the call. -/
def marshalAll (marshal : ClientTransaction → Except GoError Bytes) :
    List ClientTransaction → Except GoError (List Bytes)
  | [] => .ok []
  | t :: rest =>
    match marshal t with
    | .error err => .error err
    | .ok b =>
      match marshalAll marshal rest with
      | .error err => .error err
      | .ok bs => .ok (b :: bs)

/-- The second loop of `sortTransactions`: unmarshal every sorted entry in
order and cast it to a `ClientTransaction`, the first failure ending the
call. -/
def unmarshalAll (unmarshal : Bytes → Except GoError NetworkMessage) :
    List Bytes → Except GoError (List ClientTransaction)
  | [] => .ok []
  | b :: rest =>
    match unmarshal b with
    | .error err => .error err
    | .ok (.clientTransaction ct) =>
      match unmarshalAll unmarshal rest with
      | .error err => .error err
      | .ok cts => .ok (ct :: cts)
    | .ok .other => .error (.error "Data of wrong type")

/-- The function `sortTransactions`, which works on a slice in place: the
result is the slice as the call leaves it, together with the returned error
(none for nil). The slice is written only by the last loop, which copies the
sorted transactions over it. -/
def sortTransactions (sortSlice : (Bytes → Bytes → Bool) → List Bytes → List Bytes)
    (sha256 : Bytes → Array32)
    (marshal : ClientTransaction → Except GoError Bytes)
    (unmarshal : Bytes → Except GoError NetworkMessage)
    (ts : List ClientTransaction) : List ClientTransaction × Option GoError :=
  match marshalAll marshal ts with
  | .error err => (ts, some err)
  | .ok bs =>
    let salt := xorTransactions sha256 bs
    let bs := sortWithSalt sortSlice sha256 bs salt
    match unmarshalAll unmarshal bs with
    | .error err => (ts, some err)
    | .ok sortedTs => (sortedTs, none)

/-! ## Statements of the specification -/

/-- The encoding `LE32` in the words of the specification: the four base-256
digits, least significant first, of the value as an unsigned 32-bit
integer. -/
def specLE32 (x : Int) : Bytes :=
  (List.range 4).map (fun k => Fin.ofNat ((uint32 x) / 256 ^ k))

/-- The active variant of an instruction with exactly one of `Spawn`,
`Invoke`, `Delete` set, in the words of the specification: its discriminator
byte, its variant-specific bytes and its argument list. -/
inductive ActiveVariant (instr : Instruction) : Byte → Bytes → List Argument → Prop where
  | spawn (s : Spawn) (hs : instr.Spawn = some s) (hi : instr.Invoke = none)
      (hd : instr.Delete = none) : ActiveVariant instr 0 s.ContractID s.Args
  | invoke (inv : Invoke) (hs : instr.Spawn = none) (hi : instr.Invoke = some inv)
      (hd : instr.Delete = none) : ActiveVariant instr 1 [] inv.Args
  | delete (del : Delete) (hs : instr.Spawn = none) (hi : instr.Invoke = none)
      (hd : instr.Delete = some del) : ActiveVariant instr 2 [] []

/-- The bytes of an argument list as the digest sees them: name bytes then
value bytes of each argument, in list order. -/
def argBytes (args : List Argument) : Bytes :=
  (args.map (fun a => a.Name ++ a.Value)).flatten

/-! ## Sample values -/

/-- A spawn instruction of contract `coin` with one argument and no
signature; identifier and nonce are zero. -/
def sampleSpawn : Instruction :=
  { InstanceID := { DarcID := List.replicate 32 0, SubID := Array32.zero }
    Nonce := Array32.zero
    Index := 0
    Length := 1
    Spawn := some { ContractID := bytesOf "coin", Args := [{ Name := bytesOf "n", Value := [7] }] }
    Invoke := none
    Delete := none
    Signatures := [] }

/-- An invoke instruction with command `transfer` and one argument. -/
def sampleInvoke : Instruction :=
  { sampleSpawn with
    Spawn := none
    Invoke := some { Command := bytesOf "transfer", Args := [{ Name := bytesOf "to", Value := [1, 2] }] } }

/-- A toy digest function for evaluating the definitions: the first 32 bytes
of the reversed input, padded with zeros. -/
def toySha256 (b : Bytes) : Array32 :=
  ⟨(b.reverse ++ List.replicate 32 0).take 32, by simp⟩

/-- The bytes that `Instruction.Hash` writes for the variant: discriminator,
variant bytes, argument bytes. With no variant set nothing is written. -/
def Instruction.variantWrites (instr : Instruction) : Bytes :=
  match instr.Spawn, instr.Invoke, instr.Delete with
  | some s, _, _ => [0] ++ s.ContractID ++ argBytes s.Args
  | none, some inv, _ => [1] ++ argBytes inv.Args
  | none, none, some _ => [2]
  | none, none, none => []

/-- Two instructions have the same single active variant: both have exactly
Spawn set, or both exactly Invoke, or both exactly Delete. -/
def SameSingleVariant (i j : Instruction) : Prop :=
  (i.Spawn ≠ none ∧ j.Spawn ≠ none ∧ i.Invoke = none ∧ j.Invoke = none ∧
    i.Delete = none ∧ j.Delete = none) ∨
  (i.Spawn = none ∧ j.Spawn = none ∧ i.Invoke ≠ none ∧ j.Invoke ≠ none ∧
    i.Delete = none ∧ j.Delete = none) ∨
  (i.Spawn = none ∧ j.Spawn = none ∧ i.Invoke = none ∧ j.Invoke = none ∧
    i.Delete ≠ none ∧ j.Delete ≠ none)

/-- Two argument lists agree except in one field, the Name or the Value, of
one argument. -/
def ArgsDifferInOneField : List Argument → List Argument → Prop
  | a :: as, b :: bs =>
    (as = bs ∧ ((a.Name ≠ b.Name ∧ a.Value = b.Value) ∨ (a.Name = b.Name ∧ a.Value ≠ b.Value))) ∨
    (a = b ∧ ArgsDifferInOneField as bs)
  | _, _ => False

/-- The second instruction is the first with exactly one field changed, the
field being one of Index, Length, Nonce, InstanceID, the Spawn ContractID, or
the Name or Value of one argument. -/
inductive DiffersInOneField : Instruction → Instruction → Prop where
  | index (i : Instruction) (k : Int) (h : k ≠ i.Index) :
      DiffersInOneField i { i with Index := k }
  | length (i : Instruction) (k : Int) (h : k ≠ i.Length) :
      DiffersInOneField i { i with Length := k }
  | nonce (i : Instruction) (n : Nonce) (h : n ≠ i.Nonce) :
      DiffersInOneField i { i with Nonce := n }
  | instanceID (i : Instruction) (id : InstanceID) (h : id ≠ i.InstanceID) :
      DiffersInOneField i { i with InstanceID := id }
  | contractID (i : Instruction) (s : Spawn) (c : Bytes) (hs : i.Spawn = some s)
      (h : c ≠ s.ContractID) :
      DiffersInOneField i { i with Spawn := some { s with ContractID := c } }
  | spawnArg (i : Instruction) (s : Spawn) (args : Arguments) (hs : i.Spawn = some s)
      (h : ArgsDifferInOneField s.Args args) :
      DiffersInOneField i { i with Spawn := some { s with Args := args } }
  | invokeArg (i : Instruction) (inv : Invoke) (args : Arguments) (hi : i.Invoke = some inv)
      (h : ArgsDifferInOneField inv.Args args) :
      DiffersInOneField i { i with Invoke := some { inv with Args := args } }

/-- The spawn instruction `sampleSpawn` with its Index raised by `2 ^ 32`. -/
def sampleSpawnWrapped : Instruction := { sampleSpawn with Index := 4294967296 }

/-- The spawn instruction `sampleSpawn` with the value of its argument
changed. -/
def sampleSpawnOtherArg : Instruction :=
  { sampleSpawn with
    Spawn := some { ContractID := bytesOf "coin", Args := [{ Name := bytesOf "n", Value := [8] }] } }

/-- The invoke instruction `sampleInvoke` with another command. -/
def sampleInvokeOtherCommand : Instruction :=
  { sampleInvoke with
    Invoke := some { Command := bytesOf "burn", Args := [{ Name := bytesOf "to", Value := [1, 2] }] } }

/-- The spawn instruction `sampleSpawn` carrying two signatures. -/
def sampleSigned : Instruction :=
  { sampleSpawn with
    Signatures := [{ Signature := [1, 2], Signer := { bytes := [10] } },
                   { Signature := [3], Signer := { bytes := [11] } }] }

/-- The signatures of `sampleSigned` attributed to two other signers. -/
def sampleOtherSigners : List darc.Signature :=
  [{ Signature := [1, 2], Signer := { bytes := [98] } },
   { Signature := [3], Signer := { bytes := [99] } }]

/-- The requirement of package `sort` on a less function, stated on entries:
nothing is less than itself, and the ordering is transitive both where it
holds and where it fails. -/
structure StrictWeakOrder (less : Bytes → Bytes → Bool) : Prop where
  irrefl : ∀ a, less a a = false
  trans : ∀ a b c, less a b = true → less b c = true → less a c = true
  negTrans : ∀ a b c, less a b = false → less b c = false → less a c = false

/-- The contract of `sort.Slice`: the slice afterwards is a rearrangement of
the slice before, and for a less function that meets the requirement no
later entry is less than an earlier one. Stability is not promised. -/
structure SortSliceContract
    (sortSlice : (Bytes → Bytes → Bool) → List Bytes → List Bytes) : Prop where
  perm : ∀ less l, (sortSlice less l).Perm l
  sorted : ∀ less l, StrictWeakOrder less →
    (sortSlice less l).Pairwise (fun a b => less b a = false)

/-- The bytes `network.Marshal` gives for a transaction, nil when it fails. -/
def marshalBytes (marshal : ClientTransaction → Except GoError Bytes)
    (t : ClientTransaction) : Bytes :=
  match marshal t with
  | .ok b => b
  | .error _ => []

/-- The transaction `network.Unmarshal` gives for a byte form, if it gives
one. -/
def unmarshalTx (unmarshal : Bytes → Except GoError NetworkMessage)
    (b : Bytes) : Option ClientTransaction :=
  match unmarshal b with
  | .ok (.clientTransaction ct) => some ct
  | _ => none

/-- Marshalling succeeds on every transaction of the batch. -/
def MarshalSucceeds (marshal : ClientTransaction → Except GoError Bytes)
    (ts : List ClientTransaction) : Prop :=
  ∀ t ∈ ts, ∃ b, marshal t = .ok b

/-- Marshalling round-trips on the batch: the bytes that `network.Marshal`
gives for a transaction of the batch unmarshal to that transaction. -/
def RoundTrips (marshal : ClientTransaction → Except GoError Bytes)
    (unmarshal : Bytes → Except GoError NetworkMessage)
    (ts : List ClientTransaction) : Prop :=
  ∀ t ∈ ts, ∀ b, marshal t = .ok b → unmarshal b = .ok (.clientTransaction t)

/-- No collision of salted digests within the batch: two serialized
transactions of the batch with the same SHA-256 of salt and bytes are the
same bytes, the salt being that of the batch. -/
def NoSaltedCollision (sha256 : Bytes → Array32) (bs : List Bytes) : Prop :=
  ∀ a ∈ bs, ∀ b ∈ bs,
    sha256 (xorTransactions sha256 bs ++ a) = sha256 (xorTransactions sha256 bs ++ b) → a = b

/-- A sort that meets the contract of `sort.Slice`, for evaluating the
definitions: insertion sort. -/
def toySortSlice (less : Bytes → Bytes → Bool) (l : List Bytes) : List Bytes :=
  l.insertionSort (fun a b => less b a = false)

/-- A toy `network.Marshal` for evaluating the definitions: one byte, the
number of instructions. -/
def toyMarshal (ct : ClientTransaction) : Except GoError Bytes :=
  .ok [Fin.ofNat ct.Instructions.length]

/-- A toy `network.Unmarshal` for evaluating the definitions: a single byte n
gives the transaction of n copies of `sampleSpawn`, the two bytes `[0, 0]`
give a value of another type, anything else is an error. -/
def toyUnmarshal (b : Bytes) : Except GoError NetworkMessage :=
  match b with
  | [n] => .ok (.clientTransaction { Instructions := List.replicate n.val sampleSpawn })
  | [0, 0] => .ok .other
  | _ => .error (.error "unknown message")

/-- A marshaller that always fails. -/
def failingMarshal (_ct : ClientTransaction) : Except GoError Bytes :=
  .error (.error "cannot marshal")

/-- An unmarshaller that always fails. -/
def failingUnmarshal (_b : Bytes) : Except GoError NetworkMessage :=
  .error (.error "cannot unmarshal")

/-- An unmarshaller that always gives a value of another type. -/
def otherTypeUnmarshal (_b : Bytes) : Except GoError NetworkMessage :=
  .ok .other

/-- A batch of three transactions with two, zero and one instruction. -/
def sampleBatch : List ClientTransaction :=
  [{ Instructions := [sampleSpawn, sampleSpawn] }, { Instructions := [] },
   { Instructions := [sampleSpawn] }]

/-- The batch `sampleBatch` in another arrival order. -/
def sampleBatchPermuted : List ClientTransaction :=
  [{ Instructions := [sampleSpawn] }, { Instructions := [sampleSpawn, sampleSpawn] },
   { Instructions := [] }]

/-- The batch `sampleBatch` in the order of its salted digests. -/
def sampleBatchSorted : List ClientTransaction :=
  [{ Instructions := [] }, { Instructions := [sampleSpawn] },
   { Instructions := [sampleSpawn, sampleSpawn] }]

/-- A toy signer for evaluating the definitions: its identity is the one byte
it is made from, its signature of a message is that byte before the
message. -/
def toySigner (id : Byte) : darc.Signer :=
  { Identity := { bytes := [id] }, Sign := fun msg => .ok (id :: msg) }

/-- Verification for the toy signers: the signature is the identity bytes
before the message. -/
def toyVerify (id : darc.Identity) (msg sig : Bytes) : Bool :=
  sig == id.bytes ++ msg

/-- A toy `Request.Hash` for evaluating the definitions: base ID, action,
message and identity bytes in a row; the signatures do not enter. -/
def toyRequestHash (r : darc.Request) : Bytes :=
  r.BaseID ++ r.Action ++ r.Msg ++ (r.Identities.map (fun i => i.bytes)).flatten

/-- A toy `darc.NewFromProtobuf` for evaluating the definitions: the policy
object is its own encoding. -/
def toyNewFromProtobuf (b : Bytes) : Except GoError Bytes := .ok b

/-- A toy `GetID` for evaluating the definitions. -/
def toyGetID (d : Bytes) : Bytes := d

/-! ## Further operations of the transaction file -/

/-- The digest that `Instruction.SignBy` hands to every signer: `Request.Hash`
of the request built from the instruction with the placeholder signatures,
its identities set to those of the signers. -/
def Instruction.signDigest (sha256 : Bytes → Array32) (requestHash : darc.Request → Bytes)
    (instr : Instruction) (signers : List darc.Signer) : Bytes :=
  requestHash
    { BaseID := instr.InstanceID.DarcID
      Action := instr.Action
      Msg := instr.Hash sha256
      Identities := signers.map (fun signer => signer.Identity)
      Signatures := signers.map (fun _ => []) }

/-- The type `InstrType` with its four constants. -/
inductive InstrType where
  | InvalidInstrType
  | SpawnType
  | InvokeType
  | DeleteType
  deriving DecidableEq, Repr

/-- The method `Instruction.GetType`. -/
def Instruction.GetType (instr : Instruction) : InstrType :=
  if instr.Spawn ≠ none ∧ instr.Invoke = none ∧ instr.Delete = none then
    InstrType.SpawnType
  else if instr.Spawn = none ∧ instr.Invoke ≠ none ∧ instr.Delete = none then
    InstrType.InvokeType
  else if instr.Spawn = none ∧ instr.Invoke = none ∧ instr.Delete ≠ none then
    InstrType.DeleteType
  else
    InstrType.InvalidInstrType

namespace collection

/-- Modelled from the spec: one positional value of a stored record, an
`interface{}` cell that is either byte-typed or of another type (the
`collection` package is not part of the sources at hand). -/
inductive Value where
  | bytes (b : Bytes)
  | other
  deriving DecidableEq, Repr

/-- Modelled from the spec: `collection.Record`, whose method `Values` gives
the ordered list of the stored values or an error (the `collection` package is
not part of the sources at hand). -/
structure Record where
  Values : Except GoError (List Value)

/-- Modelled from the spec: `collection.Getter`, what `Get` hands back; its
method `Record` gives the stored record or an error (the `collection` package
is not part of the sources at hand). -/
structure Getter where
  Record : Except GoError Record

end collection

/-- Modelled from the spec: the interface `CollectionView`, the read-only
state view, with its method `Get` on a key (its declaration is not part of
the sources at hand). -/
structure CollectionView where
  Get : Bytes → collection.Getter

/-- The method `Instruction.GetContractState`, with its three results
`contractID`, `state` and `err` (none for nil). Indexing `cv[1]` or `cv[0]`
beyond the length of the value list is a run-time panic, recorded in the
third component. -/
def Instruction.GetContractState (instr : Instruction) (coll : CollectionView) :
    Bytes × Bytes × Option GoError :=
  match instr.Spawn with
  | some s => (s.ContractID, [], none)
  | none =>
    let kv := coll.Get instr.InstanceID.Slice
    match kv.Record with
    | .error err => ([], [], some err)
    | .ok record =>
      match record.Values with
      | .error err => ([], [], some err)
      | .ok cv =>
        match (cv[1]? : Option collection.Value) with
        | none => ([], [], some (.panic "index out of range"))
        | some collection.Value.other => ([], [], some (.error "failed to cast value to bytes"))
        | some (collection.Value.bytes contractIDBuf) =>
          let contractID := contractIDBuf
          match (cv[0]? : Option collection.Value) with
          | none => (contractID, [], some (.panic "index out of range"))
          | some collection.Value.other =>
            (contractID, [], some (.error "failed to cast value to bytes"))
          | some (collection.Value.bytes state) => (contractID, state, none)

/-- Modelled from the spec: the struct `ObjectID`, the identifier in two
components that `NewObjectID` builds, a DarcID and a 32-byte second component
(its declaration is not part of the sources at hand). -/
structure ObjectID where
  DarcID : darc.ID
  InstanceID : Nonce
  deriving DecidableEq

/-- Modelled from the spec: the constant `ZeroDarc`, the all-zero DarcID of 32
bytes (its declaration is not part of the sources at hand). -/
def ZeroDarc : darc.ID := List.replicate 32 0

/-- Modelled from the spec: the constant `ZeroNonce`, the all-zero nonce (its
declaration is not part of the sources at hand). -/
def ZeroNonce : Nonce := Array32.zero

/-- The function `NewNonce`. -/
def NewNonce (buf : Bytes) : Nonce :=
  if h : buf.length ≠ 32 then
    Array32.zero
  else
    ⟨buf, not_not.mp h⟩

/-- The function `NewObjectID`; `buf[0:32]` and `buf[32:64]` are the slices of
a buffer of length 64. -/
def NewObjectID (buf : Bytes) : ObjectID :=
  if buf.length ≠ 64 then
    { DarcID := ZeroDarc, InstanceID := ZeroNonce }
  else
    { DarcID := buf.take 32, InstanceID := NewNonce ((buf.drop 32).take 32) }

/-- The method `Instructions.Hash`. -/
def Instructions.Hash (sha256 : Bytes → Array32) (instrs : Instructions) : Bytes :=
  (sha256 (instrs.foldl (fun h instr => h ++ instr.Hash sha256) [])).val

/-- The type `ClientTransactions []ClientTransaction`. -/
abbrev ClientTransactions := List ClientTransaction

/-- The method `ClientTransactions.Hash`. -/
def ClientTransactions.Hash (sha256 : Bytes → Array32) (cts : ClientTransactions) : Bytes :=
  (sha256 (cts.foldl (fun h ct => h ++ Instructions.Hash sha256 ct.Instructions) [])).val

/-! ## Grouping attributes of `libmedco` -/

/-- The loop of `GroupingAttributes.Equal` from index i on: `rest` is what is
left of the receiver, `ga2` the whole argument. Reading `(*ga2)[i]` beyond the
length of the argument is a run-time panic. -/
def GroupingAttributes.equalLoop {α : Type} (elemEqual : α → α → Bool) :
    List α → Nat → List α → Except GoError Bool
  | [], _, _ => .ok true
  | v :: rest, i, ga2 =>
    match ga2[i]? with
    | none => .error (.panic "index out of range")
    | some temp =>
      if !elemEqual v temp then .ok false
      else GroupingAttributes.equalLoop elemEqual rest (i + 1) ga2

/-- The method `GroupingAttributes.Equal` on two pointers to vectors, `none`
being the nil pointer; `elemEqual` is the method `Equal` of the elements, a
`DeterministCipherText`. With a nil pointer on either side the result is the
comparison of the two pointers. -/
def GroupingAttributes.Equal {α : Type} (elemEqual : α → α → Bool)
    (ga ga2 : Option (List α)) : Except GoError Bool :=
  match ga, ga2 with
  | none, none => .ok true
  | none, some _ => .ok false
  | some _, none => .ok false
  | some a, some b => GroupingAttributes.equalLoop elemEqual a 0 b

/-- A toy signer whose signing operation always fails. -/
def failingSigner (id : Byte) : darc.Signer :=
  { Identity := { bytes := [id] }, Sign := fun _ => .error (.error "cannot sign") }

/-- A delete instruction. -/
def sampleDelete : Instruction :=
  { sampleSpawn with Spawn := none, Delete := some {} }

/-- An instruction with none of Spawn, Invoke, Delete set. -/
def sampleNoVariant : Instruction :=
  { sampleSpawn with Spawn := none }

/-- An instruction with both Spawn and Invoke set. -/
def sampleTwoVariants : Instruction :=
  { sampleSpawn with
    Invoke := some { Command := bytesOf "transfer", Args := [] } }

/-- A state view that holds one record, under the key of `sampleInvoke`: the
state bytes `[5, 6]` at position 0 and the contract identifier `coin` at
position 1; every other key is a lookup miss. -/
def sampleView : CollectionView :=
  { Get := fun key =>
      if key = sampleInvoke.InstanceID.Slice then
        { Record := .ok { Values := .ok [.bytes [5, 6], .bytes (bytesOf "coin")] } }
      else
        { Record := .error (.error "no match found") } }

/-- A state view in which every lookup is a miss. -/
def emptyView : CollectionView :=
  { Get := fun _ => { Record := .error (.error "no match found") } }

/-- A state view whose records hold a single byte-typed value. -/
def shortView : CollectionView :=
  { Get := fun _ => { Record := .ok { Values := .ok [.bytes [5, 6]] } } }

/-- A buffer of 64 bytes, the numbers 0 to 63. -/
def sampleBuffer64 : Bytes := (List.range 64).map (fun n => Fin.ofNat n)

/-- The byte-wise XOR of a list of bytes in the words of the specification:
the bytes folded with XOR from zero. -/
def xorOfBytes (l : List Byte) : Byte := l.foldl (fun x y => x ^^^ y) 0

/-- Three serialized transactions, for evaluating the salt. -/
def sampleSerialized : List Bytes := [[1, 2], [3], [4, 5, 6]]

/-- The serialized transactions `sampleSerialized` in another order. -/
def sampleSerializedPermuted : List Bytes := [[4, 5, 6], [1, 2], [3]]

/-- The discriminator byte that `Instruction.Hash` writes: the byte of the
digest input right after DarcID, SubID, Nonce and the two 4-byte integers, if
there is one. -/
def Instruction.discriminator (instr : Instruction) : Option Byte :=
  instr.hashWrites[instr.InstanceID.DarcID.length + 72]?

/-- At most one of Spawn, Invoke, Delete is set. -/
def Instruction.AtMostOneVariant (instr : Instruction) : Prop :=
  ¬ (instr.Spawn ≠ none ∧ instr.Invoke ≠ none) ∧
  ¬ (instr.Spawn ≠ none ∧ instr.Delete ≠ none) ∧
  ¬ (instr.Invoke ≠ none ∧ instr.Delete ≠ none)

/-- An invoke instruction whose command is `_evolve`. -/
def sampleEvolve : Instruction :=
  { sampleInvoke with
    Invoke := some { Command := bytesOf "_evolve", Args := [{ Name := bytesOf "darc", Value := [1] }] } }

/-- The digest that `SignBy` hands to two signers with the identities 1 and 2
on the instruction `sampleInvoke`, with the toy digest functions. -/
def sampleSignDigest : Bytes :=
  sampleInvoke.signDigest toySha256 toyRequestHash [toySigner 1, toySigner 2]

/-- A toy signer that signs one message only, as `toySigner` does, and fails
on every other message. -/
def digestOnlySigner (id : Byte) (digest : Bytes) : darc.Signer :=
  { Identity := { bytes := [id] }
    Sign := fun msg => if msg = digest then .ok (id :: msg) else .error (.error "cannot sign") }

/-! ## Lemmas on the digest input -/

theorem foldl_write_args (args : List Argument) (h : Bytes) :
    args.foldl (fun h a => (h ++ a.Name) ++ a.Value) h = h ++ argBytes args := by
  induction args generalizing h with
  | nil => simp [argBytes]
  | cons a rest ih =>
    simp only [List.foldl_cons, ih]
    simp [argBytes, List.append_assoc]

theorem putUint32_eq_specLE32 (x : Int) : putUint32 (uint32 x) = specLE32 x := by
  simp [putUint32, specLE32, List.range, List.range.loop, Nat.shiftRight_eq_div_pow]

/-! ## The instruction digest -/

/-- Claim C1. For an instruction with exactly one of Spawn, Invoke, Delete set,
`Instruction.Hash` is SHA-256 of DarcID, SubID, Nonce, LE32 of Index, LE32 of
Length, the discriminator byte, the variant bytes and then name and value
bytes of each argument of the active variant in list order, where the
discriminator is 0 with the ContractID bytes for Spawn, 1 with nothing for
Invoke, and 2 with nothing and no argument for Delete. -/
theorem Instruction.Hash_eq_sha256_of_fields (sha256 : Bytes → Array32)
    (instr : Instruction) (d : Byte) (v : Bytes) (args : List Argument)
    (h : ActiveVariant instr d v args) :
    instr.Hash sha256 =
      (sha256 (instr.InstanceID.DarcID ++ instr.InstanceID.SubID.val ++ instr.Nonce.val
        ++ specLE32 instr.Index ++ specLE32 instr.Length ++ [d] ++ v
        ++ (args.map (fun a => a.Name ++ a.Value)).flatten)).val := by
  cases h with
  | spawn s hs hi hd =>
    simp only [Instruction.Hash, Instruction.hashWrites, hs, foldl_write_args]
    simp [argBytes, putUint32_eq_specLE32, List.append_assoc]
  | invoke inv hs hi hd =>
    simp only [Instruction.Hash, Instruction.hashWrites, hs, hi, foldl_write_args]
    simp [argBytes, putUint32_eq_specLE32, List.append_assoc]
  | delete del hs hi hd =>
    simp only [Instruction.Hash, Instruction.hashWrites, hs, hi, hd, foldl_write_args]
    simp [argBytes, putUint32_eq_specLE32, List.append_assoc]

/-- Witness of C1 at a spawn instruction of contract `coin` with one
argument. -/
theorem Instruction.Hash_eq_sha256_of_fields_witness :
    ActiveVariant sampleSpawn 0 (bytesOf "coin") [{ Name := bytesOf "n", Value := [7] }] ∧
    sampleSpawn.Hash toySha256 =
      (toySha256 (sampleSpawn.InstanceID.DarcID ++ sampleSpawn.InstanceID.SubID.val
        ++ sampleSpawn.Nonce.val ++ specLE32 sampleSpawn.Index ++ specLE32 sampleSpawn.Length
        ++ [0] ++ bytesOf "coin"
        ++ (([{ Name := bytesOf "n", Value := [7] }] : List Argument).map
            (fun a => a.Name ++ a.Value)).flatten)).val :=
  ⟨ActiveVariant.spawn
     { ContractID := bytesOf "coin", Args := [{ Name := bytesOf "n", Value := [7] }] } rfl rfl rfl,
   Instruction.Hash_eq_sha256_of_fields toySha256 sampleSpawn 0 (bytesOf "coin")
     [{ Name := bytesOf "n", Value := [7] }]
     (ActiveVariant.spawn
       { ContractID := bytesOf "coin", Args := [{ Name := bytesOf "n", Value := [7] }] }
       rfl rfl rfl)⟩

theorem Instruction.hashWrites_eq (instr : Instruction) :
    instr.hashWrites =
      instr.InstanceID.DarcID ++ (instr.InstanceID.SubID.val ++ (instr.Nonce.val ++
        (putUint32 (uint32 instr.Index) ++ (putUint32 (uint32 instr.Length) ++
          instr.variantWrites)))) := by
  unfold Instruction.hashWrites Instruction.variantWrites
  simp only [foldl_write_args]
  split <;> simp [argBytes, List.append_assoc]

theorem uint32_lt (x : Int) : uint32 x < 4294967296 := by
  unfold uint32
  omega

theorem putUint32_length (v : Nat) : (putUint32 v).length = 4 := rfl

theorem putUint32_injective (v w : Nat) (hv : v < 4294967296) (hw : w < 4294967296)
    (h : putUint32 v = putUint32 w) : v = w := by
  simp only [putUint32, Nat.shiftRight_eq_div_pow, List.cons.injEq, Fin.ext_iff, Fin.ofNat,
    and_true] at h
  omega

theorem uint32_eq_iff (x y : Int) :
    uint32 x = uint32 y ↔ x % 4294967296 = y % 4294967296 := by
  unfold uint32
  omega

theorem argBytes_cons (a : Argument) (rest : List Argument) :
    argBytes (a :: rest) = a.Name ++ (a.Value ++ argBytes rest) := by
  simp [argBytes]

theorem argBytes_ne_of_differ :
    ∀ (as bs : List Argument), ArgsDifferInOneField as bs → argBytes as ≠ argBytes bs
  | [], _, h => by simp [ArgsDifferInOneField] at h
  | _ :: _, [], h => by simp [ArgsDifferInOneField] at h
  | a :: as, b :: bs, h => by
    intro heq
    rw [argBytes_cons, argBytes_cons] at heq
    rcases h with ⟨htail, hhead⟩ | ⟨hab, hrest⟩
    · subst htail
      rw [← List.append_assoc, ← List.append_assoc, List.append_left_inj] at heq
      rcases hhead with ⟨hn, hv⟩ | ⟨hn, hv⟩
      · rw [hv, List.append_left_inj] at heq
        exact hn heq
      · rw [hn, List.append_right_inj] at heq
        exact hv heq
    · subst hab
      rw [List.append_right_inj, List.append_right_inj] at heq
      exact argBytes_ne_of_differ as bs hrest heq

/-- Counterexample to C2 as stated. Two spawn instructions that differ only in
Index, 0 against `2 ^ 32`, feed the same byte string to SHA-256: the digest
input holds Index only as `uint32(Index)`, and so the digest is the same
whatever the digest function. -/
theorem Instruction.hashWrites_index_collision :
    SameSingleVariant sampleSpawn sampleSpawnWrapped ∧
    DiffersInOneField sampleSpawn sampleSpawnWrapped ∧
    sampleSpawn.hashWrites = sampleSpawnWrapped.hashWrites ∧
    ∀ sha256 : Bytes → Array32, sampleSpawn.Hash sha256 = sampleSpawnWrapped.Hash sha256 :=
  ⟨Or.inl (by decide), DiffersInOneField.index sampleSpawn 4294967296 (by decide), by decide,
   fun sha256 => congrArg (fun b => (sha256 b).val) (by decide)⟩

/-- Claim C2, amended. Two instructions with the same single active variant
that differ in exactly one of Index, Length, Nonce, InstanceID, the Spawn
ContractID, or the Name or Value of one argument feed different byte strings
to SHA-256, provided that a changed Index or Length is changed modulo
`2 ^ 32`; so the digests differ for every digest function that does not
collide on these two byte strings. -/
theorem Instruction.hashWrites_ne_of_differsInOneField (i j : Instruction)
    (hv : SameSingleVariant i j) (hd : DiffersInOneField i j)
    (hIndex : i.Index ≠ j.Index → i.Index % 4294967296 ≠ j.Index % 4294967296)
    (hLength : i.Length ≠ j.Length → i.Length % 4294967296 ≠ j.Length % 4294967296) :
    i.hashWrites ≠ j.hashWrites ∧
    ∀ sha256 : Bytes → Array32,
      (sha256 i.hashWrites = sha256 j.hashWrites → i.hashWrites = j.hashWrites) →
      i.Hash sha256 ≠ j.Hash sha256 := by
  suffices hne : i.hashWrites ≠ j.hashWrites from
    ⟨hne, fun sha256 hfree heq => hne (hfree (Subtype.ext heq))⟩
  intro heq
  rw [Instruction.hashWrites_eq, Instruction.hashWrites_eq] at heq
  cases hd with
  | index k h =>
    simp only [List.append_right_inj, Instruction.variantWrites] at heq
    rw [← List.append_assoc, ← List.append_assoc, List.append_left_inj,
      List.append_left_inj] at heq
    have h32 := putUint32_injective _ _ (uint32_lt _) (uint32_lt _) heq
    exact hIndex (Ne.symm h) ((uint32_eq_iff _ _).mp h32)
  | length k h =>
    simp only [List.append_right_inj, Instruction.variantWrites] at heq
    rw [List.append_left_inj] at heq
    have h32 := putUint32_injective _ _ (uint32_lt _) (uint32_lt _) heq
    exact hLength (Ne.symm h) ((uint32_eq_iff _ _).mp h32)
  | nonce n h =>
    simp only [List.append_right_inj, Instruction.variantWrites] at heq
    rw [List.append_left_inj] at heq
    exact h (Subtype.ext heq.symm)
  | instanceID id h =>
    simp only [Instruction.variantWrites] at heq
    rw [← List.append_assoc, ← List.append_assoc id.DarcID, List.append_left_inj] at heq
    have hlen : i.InstanceID.SubID.val.length = id.SubID.val.length := by
      rw [i.InstanceID.SubID.property, id.SubID.property]
    obtain ⟨h1, h2⟩ := List.append_inj' heq hlen
    apply h
    cases hid : id with
    | mk d s =>
      cases hi : i.InstanceID with
      | mk d0 s0 =>
        rw [hid, hi] at h1 h2
        simp only at h1 h2
        rw [h1, Subtype.ext h2]
  | contractID s c hs h =>
    simp only [List.append_right_inj, Instruction.variantWrites, hs] at heq
    simp only [List.append_assoc, List.append_right_inj, List.append_left_inj] at heq
    exact h heq.symm
  | spawnArg s args hs h =>
    simp only [List.append_right_inj, Instruction.variantWrites, hs] at heq
    exact argBytes_ne_of_differ _ _ h heq
  | invokeArg inv args hi h =>
    have hs : i.Spawn = none := by
      rcases hv with hv | hv | hv
      · exact absurd hi (by rw [hv.2.2.1]; simp)
      · exact hv.1
      · exact hv.1
    simp only [List.append_right_inj, Instruction.variantWrites, hs, hi] at heq
    exact argBytes_ne_of_differ _ _ h heq

/-- Witness of the amended C2 at a spawn instruction whose argument value is
changed. -/
theorem Instruction.hashWrites_ne_of_differsInOneField_witness :
    SameSingleVariant sampleSpawn sampleSpawnOtherArg ∧
    DiffersInOneField sampleSpawn sampleSpawnOtherArg ∧
    sampleSpawn.hashWrites ≠ sampleSpawnOtherArg.hashWrites ∧
    sampleSpawn.Hash toySha256 ≠ sampleSpawnOtherArg.Hash toySha256 :=
  have hd : DiffersInOneField sampleSpawn sampleSpawnOtherArg :=
    DiffersInOneField.spawnArg sampleSpawn
      { ContractID := bytesOf "coin", Args := [{ Name := bytesOf "n", Value := [7] }] }
      [{ Name := bytesOf "n", Value := [8] }] rfl
      (Or.inl ⟨rfl, Or.inr ⟨rfl, by decide⟩⟩)
  have h := Instruction.hashWrites_ne_of_differsInOneField sampleSpawn sampleSpawnOtherArg
    (Or.inl (by decide)) hd (fun h => absurd rfl h) (fun h => absurd rfl h)
  ⟨Or.inl (by decide), hd, h.1, h.2 toySha256 (fun heq => absurd heq (by decide))⟩

/-- Claim C3. Two instructions that have Invoke set and Spawn unset and that
are equal in every field except the Invoke Command have the same
`Instruction.Hash`: the command is not part of the digest. -/
theorem Instruction.Hash_eq_of_eq_except_command (sha256 : Bytes → Array32)
    (i j : Instruction) (a b : Omniledger.Invoke)
    (hID : i.InstanceID = j.InstanceID) (hNonce : i.Nonce = j.Nonce)
    (hIndex : i.Index = j.Index) (hLength : i.Length = j.Length)
    (hSi : i.Spawn = none) (hSj : j.Spawn = none)
    (hIi : i.Invoke = some a) (hIj : j.Invoke = some b) (hArgs : a.Args = b.Args)
    (_hDelete : i.Delete = j.Delete) (_hSigs : i.Signatures = j.Signatures) :
    i.Hash sha256 = j.Hash sha256 := by
  unfold Instruction.Hash
  rw [Instruction.hashWrites_eq, Instruction.hashWrites_eq]
  simp only [Instruction.variantWrites, hID, hNonce, hIndex, hLength, hSi, hSj, hIi, hIj, hArgs]

/-- Witness of C3 at two invoke instructions with the commands `transfer` and
`burn`. -/
theorem Instruction.Hash_eq_of_eq_except_command_witness :
    bytesOf "transfer" ≠ bytesOf "burn" ∧
    sampleInvoke.Hash toySha256 = sampleInvokeOtherCommand.Hash toySha256 :=
  ⟨by decide,
   Instruction.Hash_eq_of_eq_except_command toySha256 sampleInvoke sampleInvokeOtherCommand
     { Command := bytesOf "transfer", Args := [{ Name := bytesOf "to", Value := [1, 2] }] }
     { Command := bytesOf "burn", Args := [{ Name := bytesOf "to", Value := [1, 2] }] }
     rfl rfl rfl rfl rfl rfl rfl rfl rfl rfl rfl⟩

/-! ## Identifier derivation -/

theorem foldl_write_signatures (sigs : List darc.Signature) (h : Bytes) :
    sigs.foldl (fun h s => h ++ s.Signature) h =
      h ++ (sigs.map (fun s => s.Signature)).flatten := by
  induction sigs generalizing h with
  | nil => simp
  | cons s rest ih => simp [ih, List.append_assoc]

/-- Claim C4. `DeriveID` keeps the DarcID of the instruction and sets the SubID
to SHA-256 of the tag bytes, then `Hash` of the instruction, then the
signature bytes of every entry of Signatures in order; the signers do not
enter, so an instruction that differs only in the Signer fields derives the
same InstanceID. -/
theorem Instruction.DeriveID_eq (sha256 : Bytes → Array32) (instr : Instruction)
    (tag : Bytes) (sigs : List darc.Signature)
    (hs : sigs.map (fun s => s.Signature) = instr.Signatures.map (fun s => s.Signature)) :
    (instr.DeriveID sha256 tag).DarcID = instr.InstanceID.DarcID ∧
    (instr.DeriveID sha256 tag).SubID =
      sha256 (tag ++ instr.Hash sha256
        ++ (instr.Signatures.map (fun s => s.Signature)).flatten) ∧
    ({ instr with Signatures := sigs }).DeriveID sha256 tag = instr.DeriveID sha256 tag := by
  refine ⟨rfl, ?_, ?_⟩
  · simp [Instruction.DeriveID, Instruction.deriveWrites, foldl_write_signatures]
  · simp only [Instruction.DeriveID, Instruction.deriveWrites, foldl_write_signatures, hs,
      Instruction.Hash, Instruction.hashWrites_eq, Instruction.variantWrites]

/-- Witness of C4 at a spawn instruction with two signatures, against the same
signatures attributed to two other signers. -/
theorem Instruction.DeriveID_eq_witness :
    sampleOtherSigners ≠ sampleSigned.Signatures ∧
    (sampleSigned.DeriveID toySha256 (bytesOf "coin")).DarcID = sampleSigned.InstanceID.DarcID ∧
    (sampleSigned.DeriveID toySha256 (bytesOf "coin")).SubID =
      toySha256 (bytesOf "coin" ++ sampleSigned.Hash toySha256
        ++ (sampleSigned.Signatures.map (fun s => s.Signature)).flatten) ∧
    ({ sampleSigned with Signatures := sampleOtherSigners }).DeriveID toySha256 (bytesOf "coin") =
      sampleSigned.DeriveID toySha256 (bytesOf "coin") :=
  ⟨by decide, Instruction.DeriveID_eq toySha256 sampleSigned (bytesOf "coin")
     sampleOtherSigners rfl⟩

/-! ## Lemmas on byte comparison and on the salt -/

theorem bytesCompare_self (a : Bytes) : bytesCompare a a = 0 := by
  induction a with
  | nil => rfl
  | cons x xs ih => simp [bytesCompare, ih]

theorem bytesCompare_trans :
    ∀ (a b c : Bytes), bytesCompare a b = -1 → bytesCompare b c = -1 → bytesCompare a c = -1
  | [], [], _, h, _ => by simp [bytesCompare] at h
  | [], _ :: _, [], _, h => by simp [bytesCompare] at h
  | [], _ :: _, _ :: _, _, _ => by simp [bytesCompare]
  | _ :: _, [], _, h, _ => by simp [bytesCompare] at h
  | _ :: _, _ :: _, [], _, h => by simp [bytesCompare] at h
  | x :: xs, y :: ys, z :: zs, h1, h2 => by
    have ih := bytesCompare_trans xs ys zs
    simp only [bytesCompare, Fin.lt_def] at h1 h2 ⊢
    split_ifs at h1 h2 ⊢ <;> omega

theorem bytesCompare_negTrans :
    ∀ (a b c : Bytes), bytesCompare a c = -1 → bytesCompare a b = -1 ∨ bytesCompare b c = -1
  | [], _, [], h => by simp [bytesCompare] at h
  | [], [], _ :: _, _ => by simp [bytesCompare]
  | [], _ :: _, _ :: _, _ => by simp [bytesCompare]
  | _ :: _, _, [], h => by simp [bytesCompare] at h
  | _ :: _, [], _ :: _, _ => by simp [bytesCompare]
  | x :: xs, y :: ys, z :: zs, h => by
    have ih := bytesCompare_negTrans xs ys zs
    simp only [bytesCompare, Fin.lt_def] at h ⊢
    split_ifs at h ⊢ <;> omega

theorem bytesCompare_le_of_not_gt :
    ∀ (a b : Bytes), bytesCompare b a ≠ -1 → bytesCompare a b ≤ 0
  | [], [], _ => by simp [bytesCompare]
  | [], _ :: _, _ => by simp [bytesCompare]
  | _ :: _, [], h => by simp [bytesCompare] at h
  | x :: xs, y :: ys, h => by
    have ih := bytesCompare_le_of_not_gt xs ys
    simp only [bytesCompare, Fin.lt_def] at h ⊢
    split_ifs at h ⊢ <;> omega

theorem bytesCompare_eq_of_not_lt :
    ∀ (a b : Bytes), bytesCompare a b ≠ -1 → bytesCompare b a ≠ -1 → a = b
  | [], [], _, _ => rfl
  | [], _ :: _, h, _ => by simp [bytesCompare] at h
  | _ :: _, [], _, h => by simp [bytesCompare] at h
  | x :: xs, y :: ys, h1, h2 => by
    have ih := bytesCompare_eq_of_not_lt xs ys
    simp only [bytesCompare, Fin.lt_def] at h1 h2
    split_ifs at h1 h2 <;> first | omega | skip
    have hxy : x = y := Fin.ext (by omega)
    rw [hxy, ih h1 h2]

theorem saltedLess_eq_true (sha256 : Bytes → Array32) (salt a b : Bytes) :
    saltedLess sha256 salt a b = true ↔
      bytesCompare (sha256 (salt ++ a)).val (sha256 (salt ++ b)).val = -1 := by
  simp [saltedLess]

theorem saltedLess_eq_false (sha256 : Bytes → Array32) (salt a b : Bytes) :
    saltedLess sha256 salt a b = false ↔
      bytesCompare (sha256 (salt ++ a)).val (sha256 (salt ++ b)).val ≠ -1 := by
  simp [saltedLess]

theorem saltedLess_strictWeakOrder (sha256 : Bytes → Array32) (salt : Bytes) :
    StrictWeakOrder (saltedLess sha256 salt) where
  irrefl a := by
    rw [saltedLess_eq_false, bytesCompare_self]
    decide
  trans a b c := by
    simp only [saltedLess_eq_true]
    exact bytesCompare_trans _ _ _
  negTrans a b c := by
    simp only [saltedLess_eq_false]
    intro h1 h2 h3
    rcases bytesCompare_negTrans _ (sha256 (salt ++ b)).val _ h3 with h | h
    · exact h1 h
    · exact h2 h

theorem toySortSlice_contract : SortSliceContract toySortSlice where
  perm less l := List.perm_insertionSort _ l
  sorted less l h := by
    haveI : IsTotal Bytes (fun a b => less b a = false) :=
      ⟨fun a b => by
        by_contra hc
        simp only [not_or, Bool.not_eq_false] at hc
        have := h.trans a b a hc.2 hc.1
        rw [h.irrefl a] at this
        exact Bool.false_ne_true this⟩
    haveI : IsTrans Bytes (fun a b => less b a = false) :=
      ⟨fun a b c hab hbc => h.negTrans c b a hbc hab⟩
    exact List.sorted_insertionSort (fun a b => less b a = false) l

theorem byte_xor_val (a b : Byte) : (a ^^^ b).val = a.val ^^^ b.val := by
  show (a.val ^^^ b.val) % 256 = _
  exact Nat.mod_eq_of_lt (@Nat.xor_lt_two_pow a.val b.val 8 a.isLt b.isLt)

theorem byte_xor_right_comm (r a b : Byte) : (r ^^^ a) ^^^ b = (r ^^^ b) ^^^ a := by
  apply Fin.ext
  simp only [byte_xor_val]
  rw [Nat.xor_assoc, Nat.xor_comm a.val, ← Nat.xor_assoc]

theorem zipWith_xor_right_comm :
    ∀ (r a b : Bytes),
      List.zipWith (fun x y => x ^^^ y) (List.zipWith (fun x y => x ^^^ y) r a) b =
      List.zipWith (fun x y => x ^^^ y) (List.zipWith (fun x y => x ^^^ y) r b) a
  | [], _, _ => by simp
  | _ :: _, [], [] => by simp
  | _ :: _, [], _ :: _ => by simp
  | _ :: _, _ :: _, [] => by simp
  | x :: r, y :: a, z :: b => by
    simp only [List.zipWith_cons_cons, List.cons.injEq]
    exact ⟨byte_xor_right_comm x y z, zipWith_xor_right_comm r a b⟩

theorem Array32.xor_right_comm (r a b : Array32) :
    Array32.xor (Array32.xor r a) b = Array32.xor (Array32.xor r b) a :=
  Subtype.ext (zipWith_xor_right_comm r.val a.val b.val)

theorem xorTransactions_perm (sha256 : Bytes → Array32) {bs₁ bs₂ : List Bytes}
    (h : bs₁.Perm bs₂) : xorTransactions sha256 bs₁ = xorTransactions sha256 bs₂ := by
  unfold xorTransactions
  haveI : RightCommutative (fun (result : Array32) (t : Bytes) => Array32.xor result (sha256 t)) :=
    ⟨fun r a b => Array32.xor_right_comm r (sha256 a) (sha256 b)⟩
  rw [h.foldl_eq]

/-! ## Lemmas on the two loops of the batch ordering -/

theorem marshalAll_of_succeeds (marshal : ClientTransaction → Except GoError Bytes) :
    ∀ (ts : List ClientTransaction), MarshalSucceeds marshal ts →
      marshalAll marshal ts = .ok (ts.map (marshalBytes marshal))
  | [], _ => rfl
  | t :: rest, h => by
    obtain ⟨b, hb⟩ := h t (List.mem_cons_self t rest)
    have ih := marshalAll_of_succeeds marshal rest
      (fun t ht => h t (List.mem_cons_of_mem _ ht))
    simp [marshalAll, hb, ih, marshalBytes]

theorem marshalAll_ok (marshal : ClientTransaction → Except GoError Bytes) :
    ∀ (ts : List ClientTransaction) (bs : List Bytes), marshalAll marshal ts = .ok bs →
      MarshalSucceeds marshal ts ∧ bs = ts.map (marshalBytes marshal)
  | [], bs, h => by
    simp only [marshalAll, Except.ok.injEq] at h
    subst h
    exact ⟨fun t ht => by simp at ht, rfl⟩
  | t :: rest, bs, h => by
    simp only [marshalAll] at h
    cases hb : marshal t with
    | error e => simp [hb] at h
    | ok b =>
      cases hr : marshalAll marshal rest with
      | error e => simp [hb, hr] at h
      | ok bs0 =>
        simp only [hb, hr, Except.ok.injEq] at h
        obtain ⟨hs, hmap⟩ := marshalAll_ok marshal rest bs0 hr
        refine ⟨?_, ?_⟩
        · intro t0 ht0
          rcases List.mem_cons.mp ht0 with h0 | h0
          · exact ⟨b, h0 ▸ hb⟩
          · exact hs t0 h0
        · rw [← h, hmap]
          simp [marshalBytes, hb]

theorem unmarshalAll_ok (unmarshal : Bytes → Except GoError NetworkMessage) :
    ∀ (bs : List Bytes) (cts : List ClientTransaction), unmarshalAll unmarshal bs = .ok cts →
      List.Forall₂ (fun b ct => unmarshal b = .ok (.clientTransaction ct)) bs cts
  | [], cts, h => by
    simp only [unmarshalAll, Except.ok.injEq] at h
    subst h
    exact List.Forall₂.nil
  | b :: rest, cts, h => by
    cases hb : unmarshal b with
    | error e => simp [unmarshalAll, hb] at h
    | ok msg =>
      cases msg with
      | other => simp [unmarshalAll, hb] at h
      | clientTransaction ct =>
        cases hr : unmarshalAll unmarshal rest with
        | error e => simp [unmarshalAll, hb, hr] at h
        | ok cts0 =>
          simp only [unmarshalAll, hb, hr, Except.ok.injEq] at h
          subst h
          exact List.Forall₂.cons hb (unmarshalAll_ok unmarshal rest cts0 hr)

theorem unmarshalAll_of_forall₂ (unmarshal : Bytes → Except GoError NetworkMessage)
    {bs : List Bytes} {cts : List ClientTransaction}
    (h : List.Forall₂ (fun b ct => unmarshal b = .ok (.clientTransaction ct)) bs cts) :
    unmarshalAll unmarshal bs = .ok cts := by
  induction h with
  | nil => rfl
  | cons hb _ ih => simp [unmarshalAll, hb, ih]

theorem marshalAll_of_forall₂ (marshal : ClientTransaction → Except GoError Bytes)
    {cts : List ClientTransaction} {bs : List Bytes}
    (h : List.Forall₂ (fun ct b => marshal ct = .ok b) cts bs) :
    marshalAll marshal cts = .ok bs := by
  induction h with
  | nil => rfl
  | cons hb _ ih => simp [marshalAll, hb, ih]

theorem filterMap_unmarshalTx_of_forall₂ (unmarshal : Bytes → Except GoError NetworkMessage)
    {bs : List Bytes} {cts : List ClientTransaction}
    (h : List.Forall₂ (fun b ct => unmarshal b = .ok (.clientTransaction ct)) bs cts) :
    bs.filterMap (unmarshalTx unmarshal) = cts := by
  induction h with
  | nil => rfl
  | cons hb _ ih => simp [List.filterMap_cons, unmarshalTx, hb, ih]

theorem filterMap_unmarshalTx_marshalBytes (marshal : ClientTransaction → Except GoError Bytes)
    (unmarshal : Bytes → Except GoError NetworkMessage) :
    ∀ (ts : List ClientTransaction), MarshalSucceeds marshal ts →
      RoundTrips marshal unmarshal ts →
      (ts.map (marshalBytes marshal)).filterMap (unmarshalTx unmarshal) = ts
  | [], _, _ => rfl
  | t :: rest, hm, hrt => by
    obtain ⟨b, hb⟩ := hm t (List.mem_cons_self t rest)
    have hu := hrt t (List.mem_cons_self t rest) b hb
    have ih := filterMap_unmarshalTx_marshalBytes marshal unmarshal rest
      (fun t ht => hm t (List.mem_cons_of_mem _ ht))
      (fun t ht => hrt t (List.mem_cons_of_mem _ ht))
    simp [List.filterMap_cons, unmarshalTx, marshalBytes, hb, hu, ih]

theorem eq_of_perm_of_pairwise {α : Type} (r : α → α → Prop) :
    ∀ (l₁ l₂ : List α), l₁.Perm l₂ → l₁.Pairwise r → l₂.Pairwise r →
      (∀ a ∈ l₁, ∀ b ∈ l₁, r a b → r b a → a = b) → l₁ = l₂
  | [], l₂, hp, _, _, _ => (List.Perm.nil_eq hp)
  | a :: t₁, [], hp, _, _, _ => absurd hp.symm.nil_eq (by simp)
  | a :: t₁, b :: t₂, hp, h₁, h₂, hanti => by
    rw [List.pairwise_cons] at h₁ h₂
    have hab : a = b := by
      by_contra hne
      have ha : a ∈ t₂ := by
        rcases List.mem_cons.mp (hp.subset (List.mem_cons_self a t₁)) with h | h
        · exact absurd h hne
        · exact h
      have hb : b ∈ t₁ := by
        rcases List.mem_cons.mp (hp.symm.subset (List.mem_cons_self b t₂)) with h | h
        · exact absurd h.symm hne
        · exact h
      exact hne (hanti a (List.mem_cons_self a t₁) b (List.mem_cons_of_mem a hb)
        (h₁.1 b hb) (h₂.1 a ha))
    subst hab
    rw [eq_of_perm_of_pairwise r t₁ t₂ hp.cons_inv h₁.2 h₂.2
      (fun x hx y hy => hanti x (List.mem_cons_of_mem a hx) y (List.mem_cons_of_mem a hy))]

theorem sortTransactions_of_marshalAll
    (sortSlice : (Bytes → Bytes → Bool) → List Bytes → List Bytes) (sha256 : Bytes → Array32)
    (marshal : ClientTransaction → Except GoError Bytes)
    (unmarshal : Bytes → Except GoError NetworkMessage)
    (ts : List ClientTransaction) (bs : List Bytes) (h : marshalAll marshal ts = .ok bs) :
    sortTransactions sortSlice sha256 marshal unmarshal ts =
      match unmarshalAll unmarshal
        (sortSlice (saltedLess sha256 (xorTransactions sha256 bs)) bs) with
      | .error err => (ts, some err)
      | .ok sortedTs => (sortedTs, none) := by
  simp [sortTransactions, sortWithSalt, h]

theorem sortTransactions_ok
    (sortSlice : (Bytes → Bytes → Bool) → List Bytes → List Bytes) (sha256 : Bytes → Array32)
    (marshal : ClientTransaction → Except GoError Bytes)
    (unmarshal : Bytes → Except GoError NetworkMessage)
    (ts res : List ClientTransaction)
    (h : sortTransactions sortSlice sha256 marshal unmarshal ts = (res, none)) :
    MarshalSucceeds marshal ts ∧
    unmarshalAll unmarshal
      (sortSlice (saltedLess sha256 (xorTransactions sha256 (ts.map (marshalBytes marshal))))
        (ts.map (marshalBytes marshal))) = .ok res := by
  cases hm : marshalAll marshal ts with
  | error e => simp [sortTransactions, hm] at h
  | ok bs =>
    obtain ⟨hs, hbs⟩ := marshalAll_ok marshal ts bs hm
    subst hbs
    rw [sortTransactions_of_marshalAll sortSlice sha256 marshal unmarshal ts _ hm] at h
    refine ⟨hs, ?_⟩
    cases hu : unmarshalAll unmarshal
        (sortSlice (saltedLess sha256 (xorTransactions sha256 (ts.map (marshalBytes marshal))))
          (ts.map (marshalBytes marshal))) with
    | error e => simp [hu] at h
    | ok sortedTs =>
      simp only [hu, Prod.mk.injEq, and_true] at h
      rw [h]

/-! ## The batch ordering -/

/-- Claim C6. When `sortTransactions` succeeds on a batch on which marshalling
round-trips, the batch after the call is a permutation of the batch before:
the same multiset of transactions, hence the same length. -/
theorem sortTransactions_perm
    (sortSlice : (Bytes → Bytes → Bool) → List Bytes → List Bytes) (sha256 : Bytes → Array32)
    (marshal : ClientTransaction → Except GoError Bytes)
    (unmarshal : Bytes → Except GoError NetworkMessage)
    (ts res : List ClientTransaction)
    (hsort : ∀ less l, (sortSlice less l).Perm l)
    (hrt : RoundTrips marshal unmarshal ts)
    (hok : sortTransactions sortSlice sha256 marshal unmarshal ts = (res, none)) :
    res.Perm ts ∧ res.length = ts.length := by
  obtain ⟨hm, hu⟩ := sortTransactions_ok sortSlice sha256 marshal unmarshal ts res hok
  have h1 := filterMap_unmarshalTx_of_forall₂ unmarshal (unmarshalAll_ok unmarshal _ _ hu)
  have h2 := filterMap_unmarshalTx_marshalBytes marshal unmarshal ts hm hrt
  have hp : res.Perm ts := by
    rw [← h1]
    conv_rhs => rw [← h2]
    exact (hsort _ _).filterMap _
  exact ⟨hp, hp.length_eq⟩

theorem toy_roundTrips : RoundTrips toyMarshal toyUnmarshal sampleBatch := by
  intro t ht b hb
  simp only [sampleBatch, List.mem_cons, List.mem_singleton, List.not_mem_nil, or_false] at ht
  rcases ht with rfl | rfl | rfl <;>
    · simp only [toyMarshal, Except.ok.injEq] at hb
      subst hb
      rfl

theorem toy_marshalSucceeds : MarshalSucceeds toyMarshal sampleBatch :=
  fun _ _ => ⟨_, rfl⟩

theorem toy_sortTransactions_sampleBatch :
    sortTransactions toySortSlice toySha256 toyMarshal toyUnmarshal sampleBatch =
      (sampleBatchSorted, none) := by
  decide

/-- Witness of C6 at a batch of three transactions, with insertion sort, a toy
digest and a one-byte toy encoding. -/
theorem sortTransactions_perm_witness :
    RoundTrips toyMarshal toyUnmarshal sampleBatch ∧
    sortTransactions toySortSlice toySha256 toyMarshal toyUnmarshal sampleBatch =
      (sampleBatchSorted, none) ∧
    sampleBatchSorted.Perm sampleBatch ∧ sampleBatchSorted.length = sampleBatch.length :=
  ⟨toy_roundTrips, toy_sortTransactions_sampleBatch,
   sortTransactions_perm toySortSlice toySha256 toyMarshal toyUnmarshal sampleBatch
     sampleBatchSorted toySortSlice_contract.perm toy_roundTrips
     toy_sortTransactions_sampleBatch⟩

theorem mem_map_marshalBytes (marshal : ClientTransaction → Except GoError Bytes)
    (unmarshal : Bytes → Except GoError NetworkMessage) (ts : List ClientTransaction)
    (hm : MarshalSucceeds marshal ts) (hrt : RoundTrips marshal unmarshal ts)
    (b : Bytes) (hb : b ∈ ts.map (marshalBytes marshal)) :
    ∃ t, marshal t = .ok b ∧ unmarshal b = .ok (.clientTransaction t) := by
  obtain ⟨t, ht, rfl⟩ := List.mem_map.mp hb
  obtain ⟨b, hb⟩ := hm t ht
  have hbytes : marshalBytes marshal t = b := by simp [marshalBytes, hb]
  rw [hbytes]
  exact ⟨t, hb, hrt t ht b hb⟩

theorem map_marshalBytes_of_forall₂ (marshal : ClientTransaction → Except GoError Bytes)
    (unmarshal : Bytes → Except GoError NetworkMessage)
    {bs : List Bytes} {cts : List ClientTransaction}
    (h : List.Forall₂ (fun b ct => unmarshal b = .ok (.clientTransaction ct)) bs cts)
    (hback : ∀ b ∈ bs, ∃ t, marshal t = .ok b ∧ unmarshal b = .ok (.clientTransaction t)) :
    cts.map (marshalBytes marshal) = bs := by
  induction h with
  | nil => rfl
  | @cons b ct bs0 cts0 hb _ ih =>
    obtain ⟨t, hmt, hut⟩ := hback b (List.mem_cons_self b bs0)
    rw [hb] at hut
    simp only [Except.ok.injEq, NetworkMessage.clientTransaction.injEq] at hut
    subst hut
    simp only [List.map_cons, marshalBytes, hmt,
      ih (fun b0 hb0 => hback b0 (List.mem_cons_of_mem _ hb0))]

/-- Claim C7. When `sortTransactions` succeeds, the resulting batch is the
unmarshalling, entry by entry, of the serialized transactions of the batch
put in ascending order of SHA-256 of salt and serialized transaction, digests
compared bytewise and unsigned, the salt being the XOR of the SHA-256 of
every serialized transaction of the batch; when marshalling round-trips,
these are the serialized forms of the resulting transactions themselves. -/
theorem sortTransactions_ascending
    (sortSlice : (Bytes → Bytes → Bool) → List Bytes → List Bytes) (sha256 : Bytes → Array32)
    (marshal : ClientTransaction → Except GoError Bytes)
    (unmarshal : Bytes → Except GoError NetworkMessage)
    (ts res : List ClientTransaction)
    (hsort : SortSliceContract sortSlice)
    (hok : sortTransactions sortSlice sha256 marshal unmarshal ts = (res, none)) :
    (∃ bs : List Bytes,
      bs.Perm (ts.map (marshalBytes marshal)) ∧
      List.Forall₂ (fun b ct => unmarshal b = .ok (.clientTransaction ct)) bs res ∧
      bs.Pairwise (fun a b =>
        bytesCompare
          (sha256 (xorTransactions sha256 (ts.map (marshalBytes marshal)) ++ a)).val
          (sha256 (xorTransactions sha256 (ts.map (marshalBytes marshal)) ++ b)).val ≤ 0)) ∧
    (RoundTrips marshal unmarshal ts →
      res.Pairwise (fun x y =>
        bytesCompare
          (sha256 (xorTransactions sha256 (ts.map (marshalBytes marshal))
            ++ marshalBytes marshal x)).val
          (sha256 (xorTransactions sha256 (ts.map (marshalBytes marshal))
            ++ marshalBytes marshal y)).val ≤ 0)) := by
  obtain ⟨hm, hu⟩ := sortTransactions_ok sortSlice sha256 marshal unmarshal ts res hok
  have hf := unmarshalAll_ok unmarshal _ _ hu
  have hpair := (hsort.sorted _ (ts.map (marshalBytes marshal))
    (saltedLess_strictWeakOrder sha256
      (xorTransactions sha256 (ts.map (marshalBytes marshal))))).imp
    (fun {a b} hab =>
      bytesCompare_le_of_not_gt _ _ ((saltedLess_eq_false sha256 _ b a).mp hab))
  refine ⟨⟨_, hsort.perm _ _, hf, hpair⟩, ?_⟩
  intro hrt
  have hmap := map_marshalBytes_of_forall₂ marshal unmarshal hf
    (fun b hb => mem_map_marshalBytes marshal unmarshal ts hm hrt b
      ((hsort.perm _ _).subset hb))
  rw [← hmap, List.pairwise_map] at hpair
  exact hpair

/-- Witness of C7 at a batch of three transactions, with insertion sort, a toy
digest and a one-byte toy encoding. -/
theorem sortTransactions_ascending_witness :
    sortTransactions toySortSlice toySha256 toyMarshal toyUnmarshal sampleBatch =
      (sampleBatchSorted, none) ∧
    sampleBatchSorted.Pairwise (fun x y =>
      bytesCompare
        (toySha256 (xorTransactions toySha256 (sampleBatch.map (marshalBytes toyMarshal))
          ++ marshalBytes toyMarshal x)).val
        (toySha256 (xorTransactions toySha256 (sampleBatch.map (marshalBytes toyMarshal))
          ++ marshalBytes toyMarshal y)).val ≤ 0) :=
  ⟨toy_sortTransactions_sampleBatch,
   (sortTransactions_ascending toySortSlice toySha256 toyMarshal toyUnmarshal sampleBatch
     sampleBatchSorted toySortSlice_contract toy_sortTransactions_sampleBatch).2
     toy_roundTrips⟩

theorem unmarshalAll_of_forall (unmarshal : Bytes → Except GoError NetworkMessage) :
    ∀ (bs : List Bytes),
      (∀ b ∈ bs, ∃ ct, unmarshal b = .ok (.clientTransaction ct)) →
      ∃ cts, unmarshalAll unmarshal bs = .ok cts
  | [], _ => ⟨[], rfl⟩
  | b :: rest, h => by
    obtain ⟨ct, hct⟩ := h b (List.mem_cons_self b rest)
    obtain ⟨cts, hcts⟩ := unmarshalAll_of_forall unmarshal rest
      (fun b0 hb0 => h b0 (List.mem_cons_of_mem _ hb0))
    exact ⟨ct :: cts, by simp [unmarshalAll, hct, hcts]⟩

theorem toy_noSaltedCollision :
    NoSaltedCollision toySha256 (sampleBatch.map (marshalBytes toyMarshal)) := by
  unfold NoSaltedCollision
  decide

theorem toy_sortTransactions_sampleBatchPermuted :
    sortTransactions toySortSlice toySha256 toyMarshal toyUnmarshal sampleBatchPermuted =
      (sampleBatchSorted, none) := by
  decide

/-- Claim C5. For two batches that are permutations of each other, on which
marshalling succeeds and round-trips, and whose serialized transactions have
no collision of salted SHA-256 digests, `sortTransactions` succeeds on both
and leaves both in the identical order: the order depends on the membership
of the batch only. -/
theorem sortTransactions_eq_of_perm
    (sortSlice : (Bytes → Bytes → Bool) → List Bytes → List Bytes) (sha256 : Bytes → Array32)
    (marshal : ClientTransaction → Except GoError Bytes)
    (unmarshal : Bytes → Except GoError NetworkMessage)
    (ts₁ ts₂ : List ClientTransaction)
    (hperm : ts₁.Perm ts₂)
    (hsort : SortSliceContract sortSlice)
    (hm : MarshalSucceeds marshal ts₁)
    (hrt : RoundTrips marshal unmarshal ts₁)
    (hcoll : NoSaltedCollision sha256 (ts₁.map (marshalBytes marshal))) :
    ∃ res, sortTransactions sortSlice sha256 marshal unmarshal ts₁ = (res, none) ∧
      sortTransactions sortSlice sha256 marshal unmarshal ts₂ = (res, none) := by
  have hm₂ : MarshalSucceeds marshal ts₂ := fun t ht => hm t (hperm.symm.subset ht)
  have hbs : (ts₁.map (marshalBytes marshal)).Perm (ts₂.map (marshalBytes marshal)) :=
    hperm.map _
  have hsalt := xorTransactions_perm sha256 hbs
  have hswo := saltedLess_strictWeakOrder sha256
    (xorTransactions sha256 (ts₁.map (marshalBytes marshal)))
  have hsorted : sortSlice (saltedLess sha256
        (xorTransactions sha256 (ts₁.map (marshalBytes marshal))))
        (ts₁.map (marshalBytes marshal)) =
      sortSlice (saltedLess sha256
        (xorTransactions sha256 (ts₁.map (marshalBytes marshal))))
        (ts₂.map (marshalBytes marshal)) := by
    apply eq_of_perm_of_pairwise _ _ _
      (((hsort.perm _ _).trans hbs).trans (hsort.perm _ _).symm)
      (hsort.sorted _ _ hswo) (hsort.sorted _ _ hswo)
    intro a ha b hb hab hba
    apply hcoll a ((hsort.perm _ _).subset ha) b ((hsort.perm _ _).subset hb)
    exact Subtype.ext (bytesCompare_eq_of_not_lt _ _
      ((saltedLess_eq_false sha256 _ a b).mp hba) ((saltedLess_eq_false sha256 _ b a).mp hab))
  obtain ⟨res, hres⟩ := unmarshalAll_of_forall unmarshal
    (sortSlice (saltedLess sha256
      (xorTransactions sha256 (ts₁.map (marshalBytes marshal))))
      (ts₁.map (marshalBytes marshal)))
    (fun b hb => by
      obtain ⟨t, _, hu⟩ := mem_map_marshalBytes marshal unmarshal ts₁ hm hrt b
        ((hsort.perm _ _).subset hb)
      exact ⟨t, hu⟩)
  refine ⟨res, ?_, ?_⟩
  · rw [sortTransactions_of_marshalAll sortSlice sha256 marshal unmarshal ts₁ _
      (marshalAll_of_succeeds marshal ts₁ hm), hres]
  · rw [sortTransactions_of_marshalAll sortSlice sha256 marshal unmarshal ts₂ _
      (marshalAll_of_succeeds marshal ts₂ hm₂), ← hsalt, ← hsorted, hres]

/-- Witness of C5 at a batch of three transactions in two arrival orders, with
insertion sort, a toy digest and a one-byte toy encoding. -/
theorem sortTransactions_eq_of_perm_witness :
    sampleBatch ≠ sampleBatchPermuted ∧ sampleBatch.Perm sampleBatchPermuted ∧
    ∃ res, sortTransactions toySortSlice toySha256 toyMarshal toyUnmarshal sampleBatch =
        (res, none) ∧
      sortTransactions toySortSlice toySha256 toyMarshal toyUnmarshal sampleBatchPermuted =
        (res, none) :=
  ⟨by decide, by decide,
   sortTransactions_eq_of_perm toySortSlice toySha256 toyMarshal toyUnmarshal sampleBatch
     sampleBatchPermuted (by decide) toySortSlice_contract toy_marshalSucceeds toy_roundTrips
     toy_noSaltedCollision⟩

/-- Claim C8. When `sortTransactions` returns an error, whether a transaction
failed to marshal, a sorted byte form failed to unmarshal, or it unmarshalled
to a value of another type, the batch is left exactly as it was before the
call. -/
theorem sortTransactions_unchanged_of_error
    (sortSlice : (Bytes → Bytes → Bool) → List Bytes → List Bytes) (sha256 : Bytes → Array32)
    (marshal : ClientTransaction → Except GoError Bytes)
    (unmarshal : Bytes → Except GoError NetworkMessage)
    (ts : List ClientTransaction) (err : GoError)
    (herr : (sortTransactions sortSlice sha256 marshal unmarshal ts).2 = some err) :
    (sortTransactions sortSlice sha256 marshal unmarshal ts).1 = ts := by
  unfold sortTransactions at herr ⊢
  cases hm : marshalAll marshal ts with
  | error e => rfl
  | ok bs =>
    simp only [hm] at herr ⊢
    cases hu : unmarshalAll unmarshal
        (sortWithSalt sortSlice sha256 bs (xorTransactions sha256 bs)) with
    | error e => rfl
    | ok sortedTs => simp [hu] at herr

/-- Witness of C8 on the three error paths: a batch that cannot be marshalled,
a batch whose byte forms cannot be unmarshalled, and a batch whose byte forms
unmarshal to a value of another type. -/
theorem sortTransactions_unchanged_of_error_witness :
    ((sortTransactions toySortSlice toySha256 failingMarshal toyUnmarshal sampleBatch).2 =
        some (.error "cannot marshal") ∧
      (sortTransactions toySortSlice toySha256 failingMarshal toyUnmarshal sampleBatch).1 =
        sampleBatch) ∧
    ((sortTransactions toySortSlice toySha256 toyMarshal failingUnmarshal sampleBatch).2 =
        some (.error "cannot unmarshal") ∧
      (sortTransactions toySortSlice toySha256 toyMarshal failingUnmarshal sampleBatch).1 =
        sampleBatch) ∧
    ((sortTransactions toySortSlice toySha256 toyMarshal otherTypeUnmarshal sampleBatch).2 =
        some (.error "Data of wrong type") ∧
      (sortTransactions toySortSlice toySha256 toyMarshal otherTypeUnmarshal sampleBatch).1 =
        sampleBatch) :=
  ⟨⟨by decide,
    sortTransactions_unchanged_of_error toySortSlice toySha256 failingMarshal toyUnmarshal
      sampleBatch (.error "cannot marshal") (by decide)⟩,
   ⟨by decide,
    sortTransactions_unchanged_of_error toySortSlice toySha256 toyMarshal failingUnmarshal
      sampleBatch (.error "cannot unmarshal") (by decide)⟩,
   ⟨by decide,
    sortTransactions_unchanged_of_error toySortSlice toySha256 toyMarshal otherTypeUnmarshal
      sampleBatch (.error "Data of wrong type") (by decide)⟩⟩

/-! ## Authorization request and signing -/

theorem Instruction.Action_ne_evolve (instr : Instruction) :
    instr.Action ≠ bytesOf "_evolve" := by
  have he : bytesOf "_evolve" = [95, 101, 118, 111, 108, 118, 101] := by decide
  have hs : bytesOf "spawn:" = [115, 112, 97, 119, 110, 58] := by decide
  have hi : bytesOf "invoke:" = [105, 110, 118, 111, 107, 101, 58] := by decide
  unfold Instruction.Action
  rw [he, hs, hi]
  split
  · simp
  · simp
  · decide
  · decide

theorem Instruction.ToDarcRequest_eq {Darc : Type} (sha256 : Bytes → Array32)
    (NewFromProtobuf : Bytes → Except GoError Darc) (GetID : Darc → Bytes)
    (instr : Instruction) :
    instr.ToDarcRequest sha256 NewFromProtobuf GetID =
      .ok (darc.InitRequest instr.InstanceID.DarcID instr.Action (instr.Hash sha256)
        (instr.Signatures.map (fun sig => sig.Signer))
        (instr.Signatures.map (fun sig => sig.Signature))) := by
  unfold Instruction.ToDarcRequest
  simp only [Instruction.Action_ne_evolve instr, if_false]

theorem set_length_append {α : Type} (x y : α) (tl : List α) :
    ∀ (done : List α), (done ++ x :: tl).set done.length y = done ++ y :: tl
  | [] => rfl
  | d :: done => by simp [set_length_append x y tl done]

theorem Instruction.signLoop_of_succeeds (digest : Bytes) :
    ∀ (signers : List darc.Signer) (done : List darc.Signature) (instr : Instruction),
      (∀ s ∈ signers, ∃ sig, s.Sign digest = .ok sig) →
      instr.Signatures = done ++ List.replicate signers.length darc.Signature.zero →
      ∃ final : List darc.Signature,
        Instruction.signLoop digest signers done.length instr =
          ({ instr with Signatures := done ++ final }, none) ∧
        List.Forall₂ (fun (sg : darc.Signature) (s : darc.Signer) =>
          sg.Signer = s.Identity ∧ s.Sign digest = .ok sg.Signature) final signers
  | [], done, instr, _, hsigs => by
    refine ⟨[], ?_, List.Forall₂.nil⟩
    simp only [List.length_nil, List.replicate_zero] at hsigs
    simp only [Instruction.signLoop, ← hsigs]
  | s :: rest, done, instr, hs, hsigs => by
    obtain ⟨sig, hsig⟩ := hs s (List.mem_cons_self s rest)
    have hset : instr.Signatures.set done.length { Signature := sig, Signer := s.Identity } =
        (done ++ [{ Signature := sig, Signer := s.Identity }]) ++
          List.replicate rest.length darc.Signature.zero := by
      rw [hsigs, List.length_cons, List.replicate_succ, set_length_append]
      simp
    obtain ⟨final, hfinal, hall⟩ := Instruction.signLoop_of_succeeds digest rest
      (done ++ [{ Signature := sig, Signer := s.Identity }])
      { instr with
        Signatures := instr.Signatures.set done.length { Signature := sig, Signer := s.Identity } }
      (fun s0 hs0 => hs s0 (List.mem_cons_of_mem _ hs0)) hset
    refine ⟨{ Signature := sig, Signer := s.Identity } :: final, ?_,
      List.Forall₂.cons ⟨rfl, hsig⟩ hall⟩
    simp only [Instruction.signLoop, hsig]
    rw [List.length_append, List.length_singleton] at hfinal
    rw [hfinal]
    simp

theorem signer_ids_of_forall₂ (d : Bytes) {final : List darc.Signature}
    {signers : List darc.Signer}
    (hall : List.Forall₂ (fun (sg : darc.Signature) (s : darc.Signer) =>
      sg.Signer = s.Identity ∧ s.Sign d = .ok sg.Signature) final signers) :
    final.map (fun sig => sig.Signer) = signers.map (fun s => s.Identity) := by
  induction hall with
  | nil => rfl
  | cons h _ ih => simp [h.1, ih]

theorem verify_of_forall₂ (verify : darc.Identity → Bytes → Bytes → Bool) (d : Bytes)
    {final : List darc.Signature} {signers : List darc.Signer}
    (hall : List.Forall₂ (fun (sg : darc.Signature) (s : darc.Signer) =>
      sg.Signer = s.Identity ∧ s.Sign d = .ok sg.Signature) final signers)
    (hverify : ∀ s ∈ signers, ∀ msg sig, s.Sign msg = .ok sig →
      verify s.Identity msg sig = true) :
    ∀ sg ∈ final, verify sg.Signer d sg.Signature = true := by
  induction hall with
  | nil => intro sg hsg; simp at hsg
  | @cons sg0 s0 sgs ss h _ ih =>
    intro sg hsg
    rcases List.mem_cons.mp hsg with h0 | h0
    · subst h0
      rw [h.1]
      exact hverify s0 (List.mem_cons_self s0 ss) _ _ h.2
    · exact ih (fun s hs => hverify s (List.mem_cons_of_mem _ hs)) sg h0

theorem verify_of_forall₂_at (verify : darc.Identity → Bytes → Bytes → Bool) (d : Bytes)
    {final : List darc.Signature} {signers : List darc.Signer}
    (hall : List.Forall₂ (fun (sg : darc.Signature) (s : darc.Signer) =>
      sg.Signer = s.Identity ∧ s.Sign d = .ok sg.Signature) final signers)
    (hverify : ∀ s ∈ signers, ∀ sig, s.Sign d = .ok sig → verify s.Identity d sig = true) :
    ∀ sg ∈ final, verify sg.Signer d sg.Signature = true := by
  induction hall with
  | nil => intro sg hsg; simp at hsg
  | @cons sg0 s0 sgs ss h _ ih =>
    intro sg hsg
    rcases List.mem_cons.mp hsg with h0 | h0
    · subst h0
      rw [h.1]
      exact hverify s0 (List.mem_cons_self s0 ss) _ h.2
    · exact ih (fun s hs => hverify s (List.mem_cons_of_mem _ hs)) sg h0

theorem Instruction.SignBy_eq_signLoop {Darc : Type} (sha256 : Bytes → Array32)
    (NewFromProtobuf : Bytes → Except GoError Darc) (GetID : Darc → Bytes)
    (requestHash : darc.Request → Bytes) (instr : Instruction) (signers : List darc.Signer) :
    instr.SignBy sha256 NewFromProtobuf GetID requestHash signers =
      Instruction.signLoop (instr.signDigest sha256 requestHash signers) signers 0
        { instr with Signatures := List.replicate signers.length darc.Signature.zero } := by
  unfold Instruction.SignBy
  simp only [Instruction.ToDarcRequest_eq, Instruction.signDigest, darc.InitRequest,
    List.map_map]
  rfl

/-- Claim C10. When the Sign operation of every signer succeeds on the digest
that `SignBy` hands to it, `SignBy` returns no error and leaves in Signatures
one entry per signer, in signer order, each with that signer's identity and
that signer's signature over that one digest; the digest is that of the
request which `ToDarcRequest` builds again from the signed instruction, the
request digest depending on base ID, action, message and identities only; so
every signature verifies against the digest of the request built again. -/
theorem Instruction.SignBy_signs_request_digest {Darc : Type} (sha256 : Bytes → Array32)
    (NewFromProtobuf : Bytes → Except GoError Darc) (GetID : Darc → Bytes)
    (requestHash : darc.Request → Bytes)
    (verify : darc.Identity → Bytes → Bytes → Bool)
    (instr : Instruction) (signers : List darc.Signer)
    (hsign : ∀ s ∈ signers, ∃ sig,
      s.Sign (instr.signDigest sha256 requestHash signers) = .ok sig)
    (hreq : ∀ r₁ r₂ : darc.Request, r₁.BaseID = r₂.BaseID → r₁.Action = r₂.Action →
      r₁.Msg = r₂.Msg → r₁.Identities = r₂.Identities → requestHash r₁ = requestHash r₂)
    (hverify : ∀ s ∈ signers, ∀ sig,
      s.Sign (instr.signDigest sha256 requestHash signers) = .ok sig →
      verify s.Identity (instr.signDigest sha256 requestHash signers) sig = true) :
    ∃ (sigs : List darc.Signature) (req : darc.Request),
      instr.SignBy sha256 NewFromProtobuf GetID requestHash signers =
        ({ instr with Signatures := sigs }, none) ∧
      ({ instr with Signatures := sigs }).ToDarcRequest sha256 NewFromProtobuf GetID = .ok req ∧
      req.BaseID = instr.InstanceID.DarcID ∧ req.Action = instr.Action ∧
      req.Msg = instr.Hash sha256 ∧
      req.Identities = signers.map (fun s => s.Identity) ∧
      requestHash req = instr.signDigest sha256 requestHash signers ∧
      List.Forall₂ (fun (sg : darc.Signature) (s : darc.Signer) =>
        sg.Signer = s.Identity ∧ s.Sign (requestHash req) = .ok sg.Signature) sigs signers ∧
      ∀ sg ∈ sigs, verify sg.Signer (requestHash req) sg.Signature = true := by
  obtain ⟨final, hfinal, hall⟩ := Instruction.signLoop_of_succeeds
    (instr.signDigest sha256 requestHash signers) signers []
    { instr with Signatures := List.replicate signers.length darc.Signature.zero }
    hsign (by simp)
  have hids := signer_ids_of_forall₂ (instr.signDigest sha256 requestHash signers) hall
  have hdig : requestHash (darc.InitRequest instr.InstanceID.DarcID instr.Action
        (instr.Hash sha256) (final.map (fun (sig : darc.Signature) => sig.Signer))
        (final.map (fun (sig : darc.Signature) => sig.Signature))) =
      instr.signDigest sha256 requestHash signers :=
    hreq _ _ rfl rfl rfl hids
  refine ⟨final, darc.InitRequest instr.InstanceID.DarcID instr.Action (instr.Hash sha256)
    (final.map (fun (sig : darc.Signature) => sig.Signer))
    (final.map (fun (sig : darc.Signature) => sig.Signature)),
    ?_, ?_, rfl, rfl, rfl, hids, hdig, ?_, ?_⟩
  · rw [Instruction.SignBy_eq_signLoop]
    simpa using hfinal
  · exact Instruction.ToDarcRequest_eq sha256 NewFromProtobuf GetID _
  · rw [hdig]
    exact hall
  · rw [hdig]
    exact verify_of_forall₂_at verify _ hall hverify

theorem toyRequestHash_congr (r₁ r₂ : darc.Request) (hb : r₁.BaseID = r₂.BaseID)
    (ha : r₁.Action = r₂.Action) (hm : r₁.Msg = r₂.Msg)
    (hi : r₁.Identities = r₂.Identities) : toyRequestHash r₁ = toyRequestHash r₂ := by
  simp only [toyRequestHash, hb, ha, hm, hi]

theorem toyVerify_of_sign (id : Byte) (msg sig : Bytes)
    (h : (toySigner id).Sign msg = .ok sig) :
    toyVerify (toySigner id).Identity msg sig = true := by
  simp only [toySigner, Except.ok.injEq] at h
  subst h
  simp [toyVerify, toySigner]

theorem sampleSignDigest_eq :
    sampleInvoke.signDigest toySha256 toyRequestHash
        [toySigner 1, digestOnlySigner 2 sampleSignDigest] = sampleSignDigest := by
  decide

/-- Witness of C10 at an invoke instruction signed by two toy signers, the
second of which signs the digest of the call and fails on every other
message. -/
theorem Instruction.SignBy_signs_request_digest_witness :
    (digestOnlySigner 2 sampleSignDigest).Sign [] = .error (.error "cannot sign") ∧
    ∃ (sigs : List darc.Signature) (req : darc.Request),
      sampleInvoke.SignBy toySha256 toyNewFromProtobuf toyGetID toyRequestHash
          [toySigner 1, digestOnlySigner 2 sampleSignDigest] =
        ({ sampleInvoke with Signatures := sigs }, none) ∧
      ({ sampleInvoke with Signatures := sigs }).ToDarcRequest toySha256 toyNewFromProtobuf
          toyGetID = .ok req ∧
      req.BaseID = sampleInvoke.InstanceID.DarcID ∧ req.Action = sampleInvoke.Action ∧
      req.Msg = sampleInvoke.Hash toySha256 ∧
      req.Identities =
        [toySigner 1, digestOnlySigner 2 sampleSignDigest].map (fun s => s.Identity) ∧
      toyRequestHash req =
        sampleInvoke.signDigest toySha256 toyRequestHash
          [toySigner 1, digestOnlySigner 2 sampleSignDigest] ∧
      List.Forall₂ (fun (sg : darc.Signature) (s : darc.Signer) =>
        sg.Signer = s.Identity ∧ s.Sign (toyRequestHash req) = .ok sg.Signature)
        sigs [toySigner 1, digestOnlySigner 2 sampleSignDigest] ∧
      ∀ sg ∈ sigs, toyVerify sg.Signer (toyRequestHash req) sg.Signature = true :=
  ⟨rfl,
   Instruction.SignBy_signs_request_digest toySha256 toyNewFromProtobuf toyGetID
     toyRequestHash toyVerify sampleInvoke [toySigner 1, digestOnlySigner 2 sampleSignDigest]
     (fun s hs => by
       rw [sampleSignDigest_eq]
       simp only [List.mem_cons, List.mem_singleton, List.not_mem_nil, or_false] at hs
       rcases hs with rfl | rfl
       · exact ⟨_, rfl⟩
       · exact ⟨2 :: sampleSignDigest, by simp [digestOnlySigner]⟩)
     toyRequestHash_congr
     (fun s hs sig h => by
       rw [sampleSignDigest_eq] at h ⊢
       simp only [List.mem_cons, List.mem_singleton, List.not_mem_nil, or_false] at hs
       rcases hs with rfl | rfl
       · exact toyVerify_of_sign 1 _ sig h
       · simp only [digestOnlySigner, if_true, Except.ok.injEq] at h
         subst h
         simp [toyVerify, digestOnlySigner])⟩

/-! ## The salt when one entry is added -/

theorem xorTransactions_append_singleton (sha256 : Bytes → Array32) (bs : List Bytes)
    (t : Bytes) :
    xorTransactions sha256 (bs ++ [t]) =
      List.zipWith (fun x y => x ^^^ y) (xorTransactions sha256 bs) (sha256 t).val := by
  simp [xorTransactions, List.foldl_append, Array32.xor]

theorem zipWith_xor_eq_self_iff :
    ∀ (r h : Bytes), r.length = h.length →
      (List.zipWith (fun x y => x ^^^ y) r h = r ↔ h = List.replicate h.length 0)
  | [], [], _ => by simp
  | [], _ :: _, hl => by simp at hl
  | _ :: _, [], hl => by simp at hl
  | x :: r, y :: h, hl => by
    have ih := zipWith_xor_eq_self_iff r h (by simpa using hl)
    simp only [List.zipWith_cons_cons, List.cons.injEq, List.length_cons, List.replicate_succ, ih]
    constructor
    · rintro ⟨hxy, hrest⟩
      refine ⟨?_, hrest⟩
      have hv := congrArg Fin.val hxy
      rw [byte_xor_val] at hv
      have h2 : x.val ^^^ (x.val ^^^ y.val) = x.val ^^^ x.val := by rw [hv]
      rw [← Nat.xor_assoc, Nat.xor_self, Nat.zero_xor] at h2
      exact Fin.ext h2
    · rintro ⟨hy, hrest⟩
      refine ⟨?_, hrest⟩
      apply Fin.ext
      rw [byte_xor_val, hy]
      simp

theorem xorTransactions_length (sha256 : Bytes → Array32) (bs : List Bytes) :
    (xorTransactions sha256 bs).length = 32 :=
  (bs.foldl (fun result t => Array32.xor result (sha256 t)) Array32.zero).property

theorem xorTransactions_append_singleton_ne_iff (sha256 : Bytes → Array32) (bs : List Bytes)
    (t : Bytes) :
    xorTransactions sha256 (bs ++ [t]) ≠ xorTransactions sha256 bs ↔
      sha256 t ≠ Array32.zero := by
  rw [xorTransactions_append_singleton, Ne, Ne,
    zipWith_xor_eq_self_iff _ _ (by rw [xorTransactions_length, (sha256 t).property]),
    (sha256 t).property]
  constructor
  · intro h hz
    exact h (congrArg Subtype.val hz)
  · intro h hz
    exact h (Subtype.ext hz)

/-! ## Signing when a signer fails -/

theorem Instruction.signLoop_of_failure (digest : Bytes) (f : darc.Signer)
    (post : List darc.Signer) (err : GoError) (hf : f.Sign digest = .error err) :
    ∀ (pre : List darc.Signer) (done : List darc.Signature) (instr : Instruction),
      (∀ s ∈ pre, ∃ sig, s.Sign digest = .ok sig) →
      instr.Signatures =
        done ++ List.replicate (pre.length + (post.length + 1)) darc.Signature.zero →
      ∃ final : List darc.Signature,
        Instruction.signLoop digest (pre ++ f :: post) done.length instr =
          ({ instr with
             Signatures :=
               done ++ (final ++ List.replicate (post.length + 1) darc.Signature.zero) },
           some err) ∧
        List.Forall₂ (fun (sg : darc.Signature) (s : darc.Signer) =>
          sg.Signer = s.Identity ∧ s.Sign digest = .ok sg.Signature) final pre
  | [], done, instr, _, hsigs => by
    refine ⟨[], ?_, List.Forall₂.nil⟩
    simp only [List.length_nil, Nat.zero_add] at hsigs
    simp only [List.nil_append, Instruction.signLoop, hf, ← hsigs]
  | s :: rest, done, instr, hs, hsigs => by
    obtain ⟨sig, hsig⟩ := hs s (List.mem_cons_self s rest)
    have hset : instr.Signatures.set done.length { Signature := sig, Signer := s.Identity } =
        (done ++ [{ Signature := sig, Signer := s.Identity }]) ++
          List.replicate (rest.length + (post.length + 1)) darc.Signature.zero := by
      rw [hsigs, List.length_cons, Nat.add_right_comm, List.replicate_succ, set_length_append]
      simp
    obtain ⟨final, hfinal, hall⟩ := Instruction.signLoop_of_failure digest f post err hf rest
      (done ++ [{ Signature := sig, Signer := s.Identity }])
      { instr with
        Signatures := instr.Signatures.set done.length { Signature := sig, Signer := s.Identity } }
      (fun s0 hs0 => hs s0 (List.mem_cons_of_mem _ hs0)) hset
    refine ⟨{ Signature := sig, Signer := s.Identity } :: final, ?_,
      List.Forall₂.cons ⟨rfl, hsig⟩ hall⟩
    simp only [List.cons_append, Instruction.signLoop, hsig, List.append_eq]
    rw [List.length_append, List.length_singleton] at hfinal
    rw [hfinal]
    simp

/-- Counterexample to C11 as stated. With a first signer that signs and a
second signer that fails, `SignBy` returns the error and leaves Signatures
with the first signer's identity and signature in the first entry and a
zero-valued second entry: the signature of the earlier signer is retained, so
Signatures holds neither all signatures nor none. -/
theorem Instruction.SignBy_keeps_earlier_signature :
    (sampleInvoke.SignBy toySha256 toyNewFromProtobuf toyGetID toyRequestHash
      [toySigner 1, failingSigner 2]).2 = some (.error "cannot sign") ∧
    (sampleInvoke.SignBy toySha256 toyNewFromProtobuf toyGetID toyRequestHash
      [toySigner 1, failingSigner 2]).1.Signatures =
      [{ Signature :=
           1 :: sampleInvoke.signDigest toySha256 toyRequestHash [toySigner 1, failingSigner 2],
         Signer := (toySigner 1).Identity },
       darc.Signature.zero] ∧
    (toySigner 1).Sign
        (sampleInvoke.signDigest toySha256 toyRequestHash [toySigner 1, failingSigner 2]) =
      .ok (1 :: sampleInvoke.signDigest toySha256 toyRequestHash
        [toySigner 1, failingSigner 2]) :=
  ⟨by decide, by decide, rfl⟩

/-- Claim C11, amended. When the signers before some signer all sign and that
signer fails, `SignBy` returns that signer's error and leaves Signatures with
one entry per signer: the entries of the signers before the failing one carry
their identities and their signatures over the digest, the entry of the
failing signer and every later entry are zero-valued. No signature is
retained only when the failing signer is the first of the list. -/
theorem Instruction.SignBy_of_failure {Darc : Type} (sha256 : Bytes → Array32)
    (NewFromProtobuf : Bytes → Except GoError Darc) (GetID : Darc → Bytes)
    (requestHash : darc.Request → Bytes) (instr : Instruction)
    (pre : List darc.Signer) (f : darc.Signer) (post : List darc.Signer) (err : GoError)
    (hpre : ∀ s ∈ pre, ∃ sig,
      s.Sign (instr.signDigest sha256 requestHash (pre ++ f :: post)) = .ok sig)
    (hf : f.Sign (instr.signDigest sha256 requestHash (pre ++ f :: post)) = .error err) :
    ∃ sigs : List darc.Signature,
      instr.SignBy sha256 NewFromProtobuf GetID requestHash (pre ++ f :: post) =
        ({ instr with
           Signatures := sigs ++ List.replicate (post.length + 1) darc.Signature.zero },
         some err) ∧
      List.Forall₂ (fun (sg : darc.Signature) (s : darc.Signer) =>
        sg.Signer = s.Identity ∧
        s.Sign (instr.signDigest sha256 requestHash (pre ++ f :: post)) = .ok sg.Signature)
        sigs pre := by
  obtain ⟨final, hfinal, hall⟩ := Instruction.signLoop_of_failure
    (instr.signDigest sha256 requestHash (pre ++ f :: post)) f post err hf pre []
    { instr with
      Signatures := List.replicate (pre ++ f :: post).length darc.Signature.zero }
    hpre (by simp)
  refine ⟨final, ?_, hall⟩
  rw [Instruction.SignBy_eq_signLoop]
  simpa using hfinal

/-- Witness of the amended C11 at three signers of which the second fails. -/
theorem Instruction.SignBy_of_failure_witness :
    ∃ sigs : List darc.Signature,
      sampleInvoke.SignBy toySha256 toyNewFromProtobuf toyGetID toyRequestHash
          ([toySigner 1] ++ failingSigner 2 :: [toySigner 3]) =
        ({ sampleInvoke with
           Signatures :=
             sigs ++ List.replicate ([toySigner 3].length + 1) darc.Signature.zero },
         some (.error "cannot sign")) ∧
      List.Forall₂ (fun (sg : darc.Signature) (s : darc.Signer) =>
        sg.Signer = s.Identity ∧
        s.Sign (sampleInvoke.signDigest toySha256 toyRequestHash
          ([toySigner 1] ++ failingSigner 2 :: [toySigner 3])) = .ok sg.Signature)
        sigs [toySigner 1] :=
  Instruction.SignBy_of_failure toySha256 toyNewFromProtobuf toyGetID toyRequestHash
    sampleInvoke [toySigner 1] (failingSigner 2) [toySigner 3] (.error "cannot sign")
    (fun s hs => by
      simp only [List.mem_singleton] at hs
      subst hs
      exact ⟨_, rfl⟩)
    rfl

/-! ## The request, the action label and the instruction type -/

/-- Claim C12, at the failing input. For the evolve instruction, an Invoke
with the command `_evolve` and an argument `darc` holding an encoded policy
object, the action label is `invoke:_evolve`, not `_evolve`; so whatever the
digest function and the decoder of the policy object, `ToDarcRequest` skips
the evolve branch and embeds `Hash` of the instruction as message, where the
comment in that branch and the claim have the identifier of the policy
object. With the toy functions the two differ. -/
theorem Instruction.ToDarcRequest_evolve_embeds_hash :
    sampleEvolve.Invoke =
      some { Command := bytesOf "_evolve", Args := [{ Name := bytesOf "darc", Value := [1] }] } ∧
    sampleEvolve.Action = bytesOf "invoke:_evolve" ∧
    (∀ (Darc : Type) (sha256 : Bytes → Array32)
      (NewFromProtobuf : Bytes → Except GoError Darc) (GetID : Darc → Bytes),
      sampleEvolve.ToDarcRequest sha256 NewFromProtobuf GetID =
        .ok (darc.InitRequest sampleEvolve.InstanceID.DarcID (bytesOf "invoke:_evolve")
          (sampleEvolve.Hash sha256) [] [])) ∧
    toyNewFromProtobuf
        (Arguments.Search [{ Name := bytesOf "darc", Value := [1] }] (bytesOf "darc")) =
      .ok [1] ∧
    sampleEvolve.Hash toySha256 ≠ toyGetID [1] := by
  refine ⟨rfl, by decide, ?_, rfl, by decide⟩
  intro Darc sha256 NewFromProtobuf GetID
  rw [Instruction.ToDarcRequest_eq]
  rfl

/-- Claim C13. `Action` returns `spawn:` followed by the ContractID when
exactly Spawn is set, `invoke:` followed by the Command when exactly Invoke is
set, the literal `Delete` when exactly Delete is set, and the literal
`invalid` when no variant is set. -/
theorem Instruction.Action_eq (instr : Instruction) :
    (∀ s : Omniledger.Spawn, instr.Spawn = some s → instr.Invoke = none →
      instr.Delete = none → instr.Action = bytesOf "spawn:" ++ s.ContractID) ∧
    (∀ inv : Omniledger.Invoke, instr.Spawn = none → instr.Invoke = some inv →
      instr.Delete = none → instr.Action = bytesOf "invoke:" ++ inv.Command) ∧
    (∀ del : Omniledger.Delete, instr.Spawn = none → instr.Invoke = none →
      instr.Delete = some del → instr.Action = bytesOf "Delete") ∧
    (instr.Spawn = none → instr.Invoke = none → instr.Delete = none →
      instr.Action = bytesOf "invalid") := by
  refine ⟨?_, ?_, ?_, ?_⟩
  · intro s hs hi hd
    simp [Instruction.Action, hs]
  · intro inv hs hi hd
    simp [Instruction.Action, hs, hi]
  · intro del hs hi hd
    simp [Instruction.Action, hs, hi, hd]
  · intro hs hi hd
    simp [Instruction.Action, hs, hi, hd]

/-- Witness of C13 at a spawn, an invoke, a delete and a variant-less
instruction. -/
theorem Instruction.Action_eq_witness :
    sampleSpawn.Action = bytesOf "spawn:" ++ bytesOf "coin" ∧
    sampleInvoke.Action = bytesOf "invoke:" ++ bytesOf "transfer" ∧
    sampleDelete.Action = bytesOf "Delete" ∧
    sampleNoVariant.Action = bytesOf "invalid" :=
  ⟨(Instruction.Action_eq sampleSpawn).1
     { ContractID := bytesOf "coin", Args := [{ Name := bytesOf "n", Value := [7] }] }
     rfl rfl rfl,
   (Instruction.Action_eq sampleInvoke).2.1
     { Command := bytesOf "transfer", Args := [{ Name := bytesOf "to", Value := [1, 2] }] }
     rfl rfl rfl,
   (Instruction.Action_eq sampleDelete).2.2.1 {} rfl rfl rfl,
   (Instruction.Action_eq sampleNoVariant).2.2.2 rfl rfl rfl⟩

/-- Claim C14. `GetType` returns SpawnType, InvokeType or DeleteType exactly
when that one variant and no other is set, and InvalidInstrType exactly when
none or more than one of Spawn, Invoke, Delete is set; being a total function
it never fails. -/
theorem Instruction.GetType_eq_iff (instr : Instruction) :
    (instr.GetType = InstrType.SpawnType ↔
      instr.Spawn ≠ none ∧ instr.Invoke = none ∧ instr.Delete = none) ∧
    (instr.GetType = InstrType.InvokeType ↔
      instr.Spawn = none ∧ instr.Invoke ≠ none ∧ instr.Delete = none) ∧
    (instr.GetType = InstrType.DeleteType ↔
      instr.Spawn = none ∧ instr.Invoke = none ∧ instr.Delete ≠ none) ∧
    (instr.GetType = InstrType.InvalidInstrType ↔
      (instr.Spawn = none ∧ instr.Invoke = none ∧ instr.Delete = none) ∨
      (instr.Spawn ≠ none ∧ instr.Invoke ≠ none) ∨
      (instr.Spawn ≠ none ∧ instr.Delete ≠ none) ∨
      (instr.Invoke ≠ none ∧ instr.Delete ≠ none)) := by
  unfold Instruction.GetType
  cases instr.Spawn <;> cases instr.Invoke <;> cases instr.Delete <;> simp

/-! ## Contract resolution -/

/-- Claim C15. For a Spawn, `GetContractState` returns the ContractID of the
Spawn with no state and no error, whatever the state view; otherwise, when the
record stored under `InstanceID.Slice()` exists and its values at positions 0
and 1 are both byte-typed, it returns the bytes at position 1 as contract ID,
the bytes at position 0 as state, and no error. -/
theorem Instruction.GetContractState_eq (instr : Instruction) (coll : CollectionView) :
    (∀ s : Omniledger.Spawn, instr.Spawn = some s →
      ∀ view : CollectionView, instr.GetContractState view = (s.ContractID, [], none)) ∧
    (∀ (record : collection.Record) (cv : List collection.Value) (state contractID : Bytes),
      instr.Spawn = none →
      (coll.Get instr.InstanceID.Slice).Record = .ok record →
      record.Values = .ok cv →
      cv[0]? = some (.bytes state) → cv[1]? = some (.bytes contractID) →
      instr.GetContractState coll = (contractID, state, none)) := by
  refine ⟨?_, ?_⟩
  · intro s hs view
    simp [Instruction.GetContractState, hs]
  · intro record cv state contractID hs hr hv h0 h1
    simp [Instruction.GetContractState, hs, hr, hv, h0, h1]

/-- Witness of C15 at a spawn instruction against two views, and at an invoke
instruction whose record is in the view. -/
theorem Instruction.GetContractState_eq_witness :
    sampleSpawn.GetContractState sampleView = (bytesOf "coin", [], none) ∧
    sampleSpawn.GetContractState emptyView = (bytesOf "coin", [], none) ∧
    sampleInvoke.GetContractState sampleView = (bytesOf "coin", [5, 6], none) :=
  ⟨(Instruction.GetContractState_eq sampleSpawn sampleView).1
     { ContractID := bytesOf "coin", Args := [{ Name := bytesOf "n", Value := [7] }] } rfl
     sampleView,
   (Instruction.GetContractState_eq sampleSpawn sampleView).1
     { ContractID := bytesOf "coin", Args := [{ Name := bytesOf "n", Value := [7] }] } rfl
     emptyView,
   (Instruction.GetContractState_eq sampleInvoke sampleView).2
     { Values := .ok [.bytes [5, 6], .bytes (bytesOf "coin")] }
     [.bytes [5, 6], .bytes (bytesOf "coin")] [5, 6] (bytesOf "coin") rfl rfl rfl rfl rfl⟩

theorem Instruction.GetContractState_error_cases (instr : Instruction) (coll : CollectionView)
    (hs : instr.Spawn = none) :
    (∀ e, (coll.Get instr.InstanceID.Slice).Record = .error e →
      instr.GetContractState coll = ([], [], some e)) ∧
    (∀ record e, (coll.Get instr.InstanceID.Slice).Record = .ok record →
      record.Values = .error e → instr.GetContractState coll = ([], [], some e)) ∧
    (∀ record cv, (coll.Get instr.InstanceID.Slice).Record = .ok record →
      record.Values = .ok cv → cv[1]? = some .other →
      instr.GetContractState coll =
        ([], [], some (.error "failed to cast value to bytes"))) ∧
    (∀ record cv contractID, (coll.Get instr.InstanceID.Slice).Record = .ok record →
      record.Values = .ok cv → cv[1]? = some (.bytes contractID) → cv[0]? = some .other →
      instr.GetContractState coll =
        (contractID, [], some (.error "failed to cast value to bytes"))) ∧
    (∀ record cv, (coll.Get instr.InstanceID.Slice).Record = .ok record →
      record.Values = .ok cv → cv.length < 2 →
      instr.GetContractState coll = ([], [], some (.panic "index out of range"))) := by
  refine ⟨?_, ?_, ?_, ?_, ?_⟩
  · intro e hr
    simp [Instruction.GetContractState, hs, hr]
  · intro record e hr hv
    simp [Instruction.GetContractState, hs, hr, hv]
  · intro record cv hr hv h1
    simp [Instruction.GetContractState, hs, hr, hv, h1]
  · intro record cv contractID hr hv h1 h0
    simp [Instruction.GetContractState, hs, hr, hv, h1, h0]
  · intro record cv hr hv hlen
    have h1 : cv[1]? = none := List.getElem?_eq_none (by omega)
    simp [Instruction.GetContractState, hs, hr, hv, h1]

/-- Claim C16, at the failing input. For an invoke instruction and a state
view whose record holds a single value, `GetContractState` reads `cv[1]`
beyond the length of the value list: the call ends in a run-time panic, not
in a returned error. -/
theorem Instruction.GetContractState_panics_on_short_record :
    sampleInvoke.Spawn = none ∧
    (shortView.Get sampleInvoke.InstanceID.Slice).Record =
      .ok { Values := .ok [.bytes [5, 6]] } ∧
    sampleInvoke.GetContractState shortView =
      ([], [], some (.panic "index out of range")) :=
  ⟨rfl, rfl, by decide⟩

/-! ## Argument search, identifier construction, aggregate digests -/

theorem Arguments.Search_of_not_mem :
    ∀ (args : Arguments) (name : Bytes), (∀ x ∈ args, x.Name ≠ name) →
      Arguments.Search args name = []
  | [], _, _ => rfl
  | a :: rest, name, h => by
    have ha : a.Name ≠ name := h a (List.mem_cons_self a rest)
    simp only [Arguments.Search, ha, if_false]
    exact Arguments.Search_of_not_mem rest name (fun x hx => h x (List.mem_cons_of_mem a hx))

theorem Arguments.Search_append_of_not_mem :
    ∀ (front rest : Arguments) (name : Bytes), (∀ x ∈ front, x.Name ≠ name) →
      Arguments.Search (front ++ rest) name = Arguments.Search rest name
  | [], _, _, _ => rfl
  | a :: front, rest, name, h => by
    have ha : a.Name ≠ name := h a (List.mem_cons_self a front)
    simp only [List.cons_append, Arguments.Search, ha, if_false]
    exact Arguments.Search_append_of_not_mem front rest name
      (fun x hx => h x (List.mem_cons_of_mem a hx))

/-- Claim C17. `Arguments.Search` returns the Value of the first argument in
list order whose Name is the name searched, so the first of two arguments of
the same name wins, and returns nil when no argument has that name. -/
theorem Arguments.Search_first_match (front rest : Arguments) (a : Argument) (name : Bytes)
    (A B : Bytes) (hfront : ∀ x ∈ front, x.Name ≠ name) (ha : a.Name = name) :
    Arguments.Search (front ++ a :: rest) name = a.Value ∧
    Arguments.Search front name = [] ∧
    Arguments.Search [{ Name := name, Value := A }, { Name := name, Value := B }] name = A := by
  refine ⟨?_, Arguments.Search_of_not_mem front name hfront, ?_⟩
  · rw [Arguments.Search_append_of_not_mem front _ name hfront]
    simp [Arguments.Search, ha]
  · simp [Arguments.Search]

/-- Witness of C17 at a list with an argument `y` before two arguments `x`. -/
theorem Arguments.Search_first_match_witness :
    Arguments.Search
      ([{ Name := bytesOf "y", Value := [9] }] ++
        ({ Name := bytesOf "x", Value := [1] } : Argument) ::
          [{ Name := bytesOf "x", Value := [2] }]) (bytesOf "x") = [1] ∧
    Arguments.Search [{ Name := bytesOf "y", Value := [9] }] (bytesOf "x") = [] ∧
    Arguments.Search
      [{ Name := bytesOf "x", Value := [1] }, { Name := bytesOf "x", Value := [2] }]
      (bytesOf "x") = [1] :=
  Arguments.Search_first_match [{ Name := bytesOf "y", Value := [9] }]
    [{ Name := bytesOf "x", Value := [2] }] { Name := bytesOf "x", Value := [1] } (bytesOf "x")
    [1] [2]
    (fun x hx => by
      simp only [List.mem_singleton] at hx
      subst hx
      decide)
    rfl

/-- Claim C18. For a slice whose length is not 64, `NewObjectID` returns the
all-zero identifier, and there is no error result; for a slice of 64 bytes it
returns the identifier whose first component is bytes 0 to 32 and whose second
component is bytes 32 to 64 of the slice. `NewNonce` returns the zero nonce
for a slice whose length is not 32 and a copy of the slice otherwise. -/
theorem NewObjectID_eq (buf : Bytes) :
    (buf.length ≠ 64 →
      NewObjectID buf = { DarcID := List.replicate 32 0, InstanceID := Array32.zero }) ∧
    (buf.length = 64 →
      (NewObjectID buf).DarcID = buf.take 32 ∧
      (NewObjectID buf).InstanceID.val = (buf.drop 32).take 32 ∧
      (NewObjectID buf).DarcID ++ (NewObjectID buf).InstanceID.val = buf) ∧
    (buf.length ≠ 32 → NewNonce buf = Array32.zero) ∧
    (buf.length = 32 → (NewNonce buf).val = buf) := by
  refine ⟨?_, ?_, ?_, ?_⟩
  · intro h
    simp [NewObjectID, h, ZeroDarc, ZeroNonce]
  · intro h
    have hlen : ((buf.drop 32).take 32).length = 32 := by
      simp [List.length_take, List.length_drop, h]
    have hnonce : (NewNonce ((buf.drop 32).take 32)).val = (buf.drop 32).take 32 := by
      simp [NewNonce, hlen]
    have htake : (buf.drop 32).take 32 = buf.drop 32 :=
      List.take_of_length_le (by simp [List.length_drop, h])
    refine ⟨by simp [NewObjectID, h], ?_, ?_⟩
    · simp only [NewObjectID, h, ne_eq, not_true_eq_false, if_false, hnonce]
    · simp only [NewObjectID, h, ne_eq, not_true_eq_false, if_false]
      rw [hnonce, htake, List.take_append_drop]
  · intro h
    simp [NewNonce, h]
  · intro h
    simp [NewNonce, h]

/-- Witness of C18 at a slice of 3 bytes and at a slice of 64 bytes. -/
theorem NewObjectID_eq_witness :
    NewObjectID [1, 2, 3] = { DarcID := List.replicate 32 0, InstanceID := Array32.zero } ∧
    ((NewObjectID sampleBuffer64).DarcID = sampleBuffer64.take 32 ∧
      (NewObjectID sampleBuffer64).InstanceID.val = (sampleBuffer64.drop 32).take 32 ∧
      (NewObjectID sampleBuffer64).DarcID ++ (NewObjectID sampleBuffer64).InstanceID.val =
        sampleBuffer64) ∧
    NewNonce [1, 2, 3] = Array32.zero ∧
    (NewNonce (sampleBuffer64.take 32)).val = sampleBuffer64.take 32 :=
  ⟨(NewObjectID_eq [1, 2, 3]).1 (by decide),
   (NewObjectID_eq sampleBuffer64).2.1 (by decide),
   (NewObjectID_eq [1, 2, 3]).2.2.1 (by decide),
   (NewObjectID_eq (sampleBuffer64.take 32)).2.2.2 (by decide)⟩

theorem foldl_append_eq_flatten_map {α : Type} (f : α → Bytes) (l : List α) (h : Bytes) :
    l.foldl (fun h x => h ++ f x) h = h ++ (l.map f).flatten := by
  induction l generalizing h with
  | nil => simp
  | cons x rest ih => simp [ih, List.append_assoc]

/-- Claim C19. `ClientTransactions.Hash` is SHA-256 of the concatenation, in
list order, of the `Instructions.Hash` of each transaction, and
`Instructions.Hash` is SHA-256 of the concatenation, in list order, of the
`Hash` of each instruction; the empty list hashes to SHA-256 of the empty
string. -/
theorem ClientTransactions.Hash_eq (sha256 : Bytes → Array32) (cts : ClientTransactions)
    (instrs : Instructions) :
    ClientTransactions.Hash sha256 cts =
      (sha256 (cts.map (fun ct => Instructions.Hash sha256 ct.Instructions)).flatten).val ∧
    Instructions.Hash sha256 instrs =
      (sha256 (instrs.map (fun instr => instr.Hash sha256)).flatten).val ∧
    Instructions.Hash sha256 [] = (sha256 []).val ∧
    ClientTransactions.Hash sha256 [] = (sha256 []).val := by
  refine ⟨?_, ?_, rfl, rfl⟩
  · simp [ClientTransactions.Hash, foldl_append_eq_flatten_map]
  · simp [Instructions.Hash, foldl_append_eq_flatten_map]

/-! ## Grouping attributes -/

/-- Claim C20, at two failing inputs. On two non-nil vectors of different
lengths `GroupingAttributes.Equal` does not check equality: the empty vector
against a vector of one element gives true, and the same two vectors the other
way round end in a run-time panic on `(*ga2)[0]`, so that Equal is neither
symmetric nor total there. -/
theorem GroupingAttributes.Equal_on_different_lengths :
    GroupingAttributes.Equal (fun (a b : Nat) => a == b) (some []) (some [7]) = .ok true ∧
    GroupingAttributes.Equal (fun (a b : Nat) => a == b) (some [7]) (some []) =
      .error (.panic "index out of range") ∧
    GroupingAttributes.Equal (fun (a b : Nat) => a == b) (some [7]) (some [7, 8]) = .ok true :=
  ⟨rfl, rfl, rfl⟩

theorem GroupingAttributes.equalLoop_of_length_le {α : Type} (elemEqual : α → α → Bool)
    (ga2 : List α) :
    ∀ (rest : List α) (i : Nat), rest.length + i ≤ ga2.length →
      GroupingAttributes.equalLoop elemEqual rest i ga2 =
        .ok ((rest.zip (ga2.drop i)).all (fun p => elemEqual p.1 p.2))
  | [], _, _ => by simp [GroupingAttributes.equalLoop]
  | v :: rest, i, h => by
    have hi : i < ga2.length := by
      simp only [List.length_cons] at h
      omega
    have ih := GroupingAttributes.equalLoop_of_length_le elemEqual ga2 rest (i + 1)
      (by simp only [List.length_cons] at h; omega)
    rw [List.drop_eq_getElem_cons hi]
    simp only [GroupingAttributes.equalLoop, List.getElem?_eq_getElem hi, List.zip_cons_cons,
      List.all_cons, ih]
    cases elemEqual v ga2[i] <;> simp

theorem GroupingAttributes.Equal_of_length_eq {α : Type} (elemEqual : α → α → Bool)
    (a b : List α) (h : a.length = b.length) :
    GroupingAttributes.Equal elemEqual (some a) (some b) =
      .ok ((a.zip b).all (fun p => elemEqual p.1 p.2)) := by
  have := GroupingAttributes.equalLoop_of_length_le elemEqual b a 0 (by omega)
  simpa [GroupingAttributes.Equal] using this

/-! ## The salt as a byte-wise XOR -/

theorem Array32.xor_getD (a b : Array32) (i : Nat) (hi : i < 32) :
    (Array32.xor a b).val.getD i 0 = a.val.getD i 0 ^^^ b.val.getD i 0 := by
  have ha : i < a.val.length := by rw [a.property]; exact hi
  have hb : i < b.val.length := by rw [b.property]; exact hi
  have hab : i < (List.zipWith (fun x y => x ^^^ y) a.val b.val).length := by
    rw [List.length_zipWith, a.property, b.property]
    exact hi
  simp only [Array32.xor, List.getD_eq_getElem?_getD, List.getElem?_eq_getElem ha,
    List.getElem?_eq_getElem hb, List.getElem?_eq_getElem hab, Option.getD_some,
    List.getElem_zipWith]

theorem foldl_xor_getD (sha256 : Bytes → Array32) (i : Nat) (hi : i < 32) :
    ∀ (ts : List Bytes) (acc : Array32),
      (ts.foldl (fun result t => Array32.xor result (sha256 t)) acc).val.getD i 0 =
        (ts.map (fun t => (sha256 t).val.getD i 0)).foldl (fun x y => x ^^^ y)
          (acc.val.getD i 0)
  | [], _ => rfl
  | t :: rest, acc => by
    simp only [List.foldl_cons, List.map_cons]
    rw [foldl_xor_getD sha256 i hi rest (Array32.xor acc (sha256 t)), Array32.xor_getD _ _ i hi]

theorem replicate_zero_getD (n i : Nat) : (List.replicate n (0 : Byte)).getD i 0 = 0 := by
  rw [List.getD_eq_getElem?_getD, List.getElem?_replicate]
  split <;> rfl

theorem Array32.zero_getD (i : Nat) : Array32.zero.val.getD i 0 = 0 :=
  replicate_zero_getD 32 i

/-- Claim C21. `xorTransactions` returns 32 bytes, the byte at every index
being the XOR of the bytes at that index of the SHA-256 digests of the
entries; the value is the same for every permutation of the list, and for the
empty list it is 32 zero bytes. -/
theorem xorTransactions_eq_xor_of_digests (sha256 : Bytes → Array32) (ts ts₂ : List Bytes)
    (hperm : ts.Perm ts₂) :
    (xorTransactions sha256 ts).length = 32 ∧
    (∀ i, i < 32 →
      (xorTransactions sha256 ts).getD i 0 =
        xorOfBytes (ts.map (fun t => (sha256 t).val.getD i 0))) ∧
    xorTransactions sha256 ts = xorTransactions sha256 ts₂ ∧
    xorTransactions sha256 [] = List.replicate 32 0 := by
  refine ⟨xorTransactions_length sha256 ts, ?_, xorTransactions_perm sha256 hperm, rfl⟩
  intro i hi
  unfold xorTransactions xorOfBytes
  rw [foldl_xor_getD sha256 i hi ts Array32.zero, Array32.zero_getD]

/-- Witness of C21 at three serialized transactions in two orders, with a toy
digest. -/
theorem xorTransactions_eq_xor_of_digests_witness :
    sampleSerialized ≠ sampleSerializedPermuted ∧
    (xorTransactions toySha256 sampleSerialized).length = 32 ∧
    (∀ i, i < 32 →
      (xorTransactions toySha256 sampleSerialized).getD i 0 =
        xorOfBytes (sampleSerialized.map (fun t => (toySha256 t).val.getD i 0))) ∧
    xorTransactions toySha256 sampleSerialized =
      xorTransactions toySha256 sampleSerializedPermuted ∧
    xorTransactions toySha256 [] = List.replicate 32 0 :=
  ⟨by decide,
   xorTransactions_eq_xor_of_digests toySha256 sampleSerialized sampleSerializedPermuted
     (by decide)⟩

/-! ## The evolve branch and the three classifiers -/

/-- Claim C22. The action label of an instruction is never `_evolve`; so
`ToDarcRequest` takes the other branch for every instruction: it returns no
error, its result does not depend on how the Invoke argument `darc` would be
decoded, and the message of the request is `Hash` of the instruction. -/
theorem Instruction.ToDarcRequest_never_evolve {Darc : Type} (sha256 : Bytes → Array32)
    (NewFromProtobuf : Bytes → Except GoError Darc) (GetID : Darc → Bytes)
    (instr : Instruction) :
    instr.Action ≠ bytesOf "_evolve" ∧
    instr.ToDarcRequest sha256 NewFromProtobuf GetID =
      .ok (darc.InitRequest instr.InstanceID.DarcID instr.Action (instr.Hash sha256)
        (instr.Signatures.map (fun sig => sig.Signer))
        (instr.Signatures.map (fun sig => sig.Signature))) ∧
    (∀ req, instr.ToDarcRequest sha256 NewFromProtobuf GetID = .ok req →
      req.Msg = instr.Hash sha256) ∧
    (∀ (Darc₂ : Type) (NewFromProtobuf₂ : Bytes → Except GoError Darc₂) (GetID₂ : Darc₂ → Bytes),
      instr.ToDarcRequest sha256 NewFromProtobuf₂ GetID₂ =
        instr.ToDarcRequest sha256 NewFromProtobuf GetID) ∧
    sampleEvolve.Action = bytesOf "invoke:_evolve" := by
  refine ⟨Instruction.Action_ne_evolve instr,
    Instruction.ToDarcRequest_eq sha256 NewFromProtobuf GetID instr, ?_, ?_, by decide⟩
  · intro req h
    rw [Instruction.ToDarcRequest_eq] at h
    simp only [Except.ok.injEq] at h
    rw [← h]
    rfl
  · intro Darc₂ NewFromProtobuf₂ GetID₂
    rw [Instruction.ToDarcRequest_eq, Instruction.ToDarcRequest_eq]

theorem getElem?_append_add {α : Type} (a b : List α) (k : Nat) :
    (a ++ b)[a.length + k]? = b[k]? := by
  rw [List.getElem?_append_right (Nat.le_add_right _ _), Nat.add_sub_cancel_left]

theorem Instruction.discriminator_eq (instr : Instruction) :
    instr.discriminator = instr.variantWrites[0]? := by
  have h72 : instr.InstanceID.DarcID.length + 72 =
      instr.InstanceID.DarcID.length + (instr.InstanceID.SubID.val.length +
        (instr.Nonce.val.length + ((putUint32 (uint32 instr.Index)).length +
          ((putUint32 (uint32 instr.Length)).length + 0)))) := by
    rw [instr.InstanceID.SubID.property, instr.Nonce.property, putUint32_length,
      putUint32_length]
  unfold Instruction.discriminator
  rw [Instruction.hashWrites_eq, h72, getElem?_append_add, getElem?_append_add,
    getElem?_append_add, getElem?_append_add, getElem?_append_add]

theorem Instruction.Action_eq_invalid_iff (instr : Instruction) :
    instr.Action = bytesOf "invalid" ↔
      instr.Spawn = none ∧ instr.Invoke = none ∧ instr.Delete = none := by
  have hv : bytesOf "invalid" = [105, 110, 118, 97, 108, 105, 100] := by decide
  have hs : bytesOf "spawn:" = [115, 112, 97, 119, 110, 58] := by decide
  have hi : bytesOf "invoke:" = [105, 110, 118, 111, 107, 101, 58] := by decide
  have hd : bytesOf "Delete" = [68, 101, 108, 101, 116, 101] := by decide
  unfold Instruction.Action
  rw [hv, hs, hi, hd]
  cases instr.Spawn <;> cases instr.Invoke <;> cases instr.Delete <;> simp

/-- Counterexample to C23 as stated. For an instruction with both Spawn and
Invoke set, `GetType` returns InvalidInstrType while `Action` returns the
label `spawn:coin`, not `invalid`, and `Hash` writes the discriminator 0. -/
theorem Instruction.classifiers_disagree_on_two_variants :
    sampleTwoVariants.GetType = InstrType.InvalidInstrType ∧
    sampleTwoVariants.Action = bytesOf "spawn:coin" ∧
    sampleTwoVariants.Action ≠ bytesOf "invalid" ∧
    sampleTwoVariants.discriminator = some 0 := by
  decide

/-- Claim C23, amended. `Action` returns `invalid` exactly when none of Spawn,
Invoke, Delete is set; so `Action` returning `invalid` implies `GetType`
returning InvalidInstrType, and the converse holds for every instruction with
at most one variant set. When `GetType` returns SpawnType, InvokeType or
DeleteType, the action label starts with `spawn:`, starts with `invoke:`, or
is `Delete`, and the discriminator byte written by `Hash` is 0, 1 or 2. -/
theorem Instruction.classifiers_agree (instr : Instruction) :
    (instr.Action = bytesOf "invalid" ↔
      instr.Spawn = none ∧ instr.Invoke = none ∧ instr.Delete = none) ∧
    (instr.Action = bytesOf "invalid" → instr.GetType = InstrType.InvalidInstrType) ∧
    (instr.AtMostOneVariant → instr.GetType = InstrType.InvalidInstrType →
      instr.Action = bytesOf "invalid") ∧
    (instr.GetType = InstrType.SpawnType →
      (∃ rest, instr.Action = bytesOf "spawn:" ++ rest) ∧ instr.discriminator = some 0) ∧
    (instr.GetType = InstrType.InvokeType →
      (∃ rest, instr.Action = bytesOf "invoke:" ++ rest) ∧ instr.discriminator = some 1) ∧
    (instr.GetType = InstrType.DeleteType →
      instr.Action = bytesOf "Delete" ∧ instr.discriminator = some 2) := by
  refine ⟨Instruction.Action_eq_invalid_iff instr, ?_, ?_, ?_, ?_, ?_⟩
  · intro h
    obtain ⟨hs, hi, hd⟩ := (Instruction.Action_eq_invalid_iff instr).mp h
    simp [Instruction.GetType, hs, hi, hd]
  · intro hone hinv
    rw [Instruction.Action_eq_invalid_iff]
    unfold Instruction.AtMostOneVariant at hone
    unfold Instruction.GetType at hinv
    revert hone hinv
    cases instr.Spawn <;> cases instr.Invoke <;> cases instr.Delete <;> simp
  · intro h
    rw [Instruction.discriminator_eq]
    unfold Instruction.GetType at h
    unfold Instruction.Action Instruction.variantWrites
    revert h
    cases instr.Spawn <;> cases instr.Invoke <;> cases instr.Delete <;> simp
  · intro h
    rw [Instruction.discriminator_eq]
    unfold Instruction.GetType at h
    unfold Instruction.Action Instruction.variantWrites
    revert h
    cases instr.Spawn <;> cases instr.Invoke <;> cases instr.Delete <;> simp
  · intro h
    rw [Instruction.discriminator_eq]
    unfold Instruction.GetType at h
    unfold Instruction.Action Instruction.variantWrites
    revert h
    cases instr.Spawn <;> cases instr.Invoke <;> cases instr.Delete <;> simp

/-- Witness of the amended C23 at a variant-less, a spawn, an invoke and a
delete instruction. -/
theorem Instruction.classifiers_agree_witness :
    sampleNoVariant.GetType = InstrType.InvalidInstrType ∧
    sampleNoVariant.Action = bytesOf "invalid" ∧
    ((∃ rest, sampleSpawn.Action = bytesOf "spawn:" ++ rest) ∧
      sampleSpawn.discriminator = some 0) ∧
    ((∃ rest, sampleInvoke.Action = bytesOf "invoke:" ++ rest) ∧
      sampleInvoke.discriminator = some 1) ∧
    (sampleDelete.Action = bytesOf "Delete" ∧ sampleDelete.discriminator = some 2) :=
  ⟨by decide,
   (Instruction.classifiers_agree sampleNoVariant).2.2.1
     (by unfold Instruction.AtMostOneVariant; decide) (by decide),
   (Instruction.classifiers_agree sampleSpawn).2.2.2.1 (by decide),
   (Instruction.classifiers_agree sampleInvoke).2.2.2.2.1 (by decide),
   (Instruction.classifiers_agree sampleDelete).2.2.2.2.2 (by decide)⟩

end Omniledger
